import Mathlib

/-!
Shallow embedding of the reconciliation core of `active_instances`
(src/active_instances.py) and formal verification of its specified
properties.

The Python function fetches three record sets (hypervisors, active
instances, projects), validates every hypervisor's availability zone,
builds a short-hostname lookup table of hypervisors, filters the
instances down to those whose hypervisor and project references resolve,
and finally enriches each surviving instance record in place, returning
a generator over the enriched records.

Modelling decisions:
- Python dicts are modelled as insertion-ordered association lists
  (`dlookup` / `dinsert`), matching iteration-in-insertion-order and
  update-in-place semantics.
- `sys.exit(1)` is modelled as the `Except.error` branch carrying the
  `Fatal` condition and the log produced so far.
- Logging calls are modelled as a list of `LogEvent` values.
- Python object aliasing matters: `instance_by_id` stores references to
  the fetched instance dicts, so the enrichment loop mutates the fetched
  records themselves.  We model this by keying `instance_by_id` with
  positions into the fetched instance list and letting the enrichment
  phase update that list at those positions; `active_instances` returns
  the output records, the post-run state of the fetched instance list,
  and the log.
-/

namespace ActiveInstances

/-- A hypervisor record as fetched from the reporting service (fields used
by the source: id, hostname, availability_zone, last_seen).  A null
availability zone is `none`. -/
structure Hypervisor where
  id : String
  hostname : String
  availability_zone : Option String
  last_seen : Int
  deriving DecidableEq, Repr

/-- An active-instance record (fields used by the source: id, hypervisor,
project_id, availability_zone; the enrichment phase adds
project_display_name, which is `none` while the key is absent). -/
structure Inst where
  id : String
  hypervisor : Option String
  project_id : String
  availability_zone : Option String
  project_display_name : Option String
  deriving DecidableEq, Repr

/-- A project record (fields used by the source: id, display_name). -/
structure Project where
  id : String
  display_name : String
  deriving DecidableEq, Repr

/-- The fatal conditions signalled by `sys.exit(1)` in the source. -/
inductive Fatal where
  | noAZ (hypId : String)
  | unknownHypervisor (instId : String)
  deriving DecidableEq, Repr

/-- One logging call of the source, in order of appearance. -/
inductive LogEvent where
  | errorNoAZ (hypId : String)
  | debugCheckedAZ
  | warnDupShortName (short : String) (keptId : String) (newId : String)
  | warnNoHypervisor (instId : String)
  | errorUnknownHypervisor (instId : String)
  | warnBadProject (instId : String) (projId : String)
  | debugCheckedInstances
  deriving DecidableEq, Repr

/-- Lookup in a Python-dict-like association list (first match wins; the
list never holds a key twice when built with `dinsert`). -/
def dlookup {β : Type} (k : String) : List (String × β) → Option β
  | [] => none
  | p :: rest => if p.1 = k then some p.2 else dlookup k rest

/-- Python dict assignment `d[k] = v`: replace in place if the key is
present (keeping its insertion position), append otherwise. -/
def dinsert {β : Type} (k : String) (v : β) : List (String × β) → List (String × β)
  | [] => [(k, v)]
  | p :: rest => if p.1 = k then (k, v) :: rest else p :: dinsert k v rest

/-- Python `hostname.split('.')[0]`: the text before the first dot (the
whole string when there is no dot). -/
def shortName (s : String) : String :=
  String.mk (s.toList.takeWhile (fun c => c ≠ '.'))

/-- Python truthiness test `not h['availability_zone']`: true for a null
value or the empty string. -/
def azFalsy : Option String → Bool
  | none => true
  | some s => s == ""

/-- The availability-zone validation loop (source lines 39-42): returns
the id of the first hypervisor whose availability_zone is falsy, if any. -/
def azCheck : List Hypervisor → Option String
  | [] => none
  | h :: rest => if azFalsy h.availability_zone then some h.id else azCheck rest

/-- The short-name resolver loop (source lines 48-59), threading the
accumulated dict and log.  On a collision the duplicate warning is
logged; the stored hypervisor is kept only when the new one's last_seen
is strictly smaller, otherwise the new one replaces it. -/
def buildHypShortAux : List Hypervisor → List (String × Hypervisor) → List LogEvent →
    List (String × Hypervisor) × List LogEvent
  | [], m, log => (m, log)
  | h :: rest, m, log =>
    let s := shortName h.hostname
    match dlookup s m with
    | none => buildHypShortAux rest (dinsert s h m) log
    | some h0 =>
      let log2 := log ++ [LogEvent.warnDupShortName s h0.id h.id]
      if h.last_seen < h0.last_seen then buildHypShortAux rest m log2
      else buildHypShortAux rest (dinsert s h m) log2

/-- The short-name lookup table, ignoring the log. -/
def hypShortMap (hs : List Hypervisor) : List (String × Hypervisor) :=
  (buildHypShortAux hs [] []).1

/-- `project_by_id = {p['id']: p for p in project}` (source line 62). -/
def buildProjectById (ps : List Project) : List (String × Project) :=
  ps.foldl (fun m p => dinsert p.id p m) []

/-- Pair each fetched instance record with its position in the fetched
list; positions stand in for Python object identity. -/
def enumerate (n : Nat) : List Inst → List (Nat × Inst)
  | [] => []
  | i :: rest => (n, i) :: enumerate (n + 1) rest

/-- The per-instance validation loop (source lines 65-78): skip and warn
on a null hypervisor reference, abort on an unresolvable one, skip and
warn on an unknown project id, otherwise record the resolved hypervisor
and the instance in the two id-keyed dicts. -/
def joinLoop (hypShort : List (String × Hypervisor)) (projById : List (String × Project)) :
    List (Nat × Inst) → List (String × Hypervisor) → List (String × Nat) → List LogEvent →
    Except (Fatal × List LogEvent)
      (List (String × Hypervisor) × List (String × Nat) × List LogEvent)
  | [], mh, mi, log => Except.ok (mh, mi, log)
  | p :: rest, mh, mi, log =>
    let i := p.2
    match i.hypervisor with
    | none =>
      joinLoop hypShort projById rest mh mi (log ++ [LogEvent.warnNoHypervisor i.id])
    | some ref =>
      match dlookup (shortName ref) hypShort with
      | none =>
        Except.error (Fatal.unknownHypervisor i.id,
          log ++ [LogEvent.errorUnknownHypervisor i.id])
      | some hyp =>
        match dlookup i.project_id projById with
        | none =>
          joinLoop hypShort projById rest mh mi
            (log ++ [LogEvent.warnBadProject i.id i.project_id])
        | some _ =>
          joinLoop hypShort projById rest
            (dinsert i.id hyp mh) (dinsert i.id p.1 mi) log

/-- The enrichment of one instance record (source lines 86-92): overwrite
availability_zone with the resolved hypervisor's value, then attach the
project display name.  The source would raise a KeyError when the
project id is absent; that branch is unreachable because the join loop
already validated the project id. -/
def enrichRec (projById : List (String × Project)) (hyp : Hypervisor) (i : Inst) : Inst :=
  match dlookup i.project_id projById with
  | some p =>
    { i with availability_zone := hyp.availability_zone,
             project_display_name := some p.display_name }
  | none => { i with availability_zone := hyp.availability_zone }

/-- The enrichment loop (source lines 83-92): for each key of
`instance_hypervisor` in insertion order, mutate the fetched instance
the key points at.  The `none` fallbacks are unreachable: both dicts are
always extended together, with a valid position. -/
def enrichAll (projById : List (String × Project)) (mi : List (String × Nat)) :
    List (String × Hypervisor) → List Inst → List Inst
  | [], insts => insts
  | e :: rest, insts =>
    enrichAll projById mi rest
      (match dlookup e.1 mi with
       | none => insts
       | some idx =>
         match insts[idx]? with
         | none => insts
         | some i => insts.set idx (enrichRec projById e.2 i))

/-- The returned generator (source line 94): the values of
`instance_by_id` in insertion order, read from the post-mutation state of
the fetched instance list. -/
def outputRecords (mi : List (String × Nat)) (insts : List Inst) : List Inst :=
  mi.filterMap (fun p => insts[p.2]?)

/-- The reconciliation core of `active_instances` (source lines 30-94),
applied to the three already-fetched record sets.  On success it returns
the output records, the post-run state of the fetched instance list
(mutated in place by enrichment), and the log; on a fatal condition it
returns the condition and the log up to the abort. -/
def active_instances (hypervisor : List Hypervisor) (insts : List Inst)
    (project : List Project) :
    Except (Fatal × List LogEvent) (List Inst × List Inst × List LogEvent) :=
  match azCheck hypervisor with
  | some hid => Except.error (Fatal.noAZ hid, [LogEvent.errorNoAZ hid])
  | none =>
    let r := buildHypShortAux hypervisor [] [LogEvent.debugCheckedAZ]
    let projById := buildProjectById project
    match joinLoop r.1 projById (enumerate 0 insts) [] [] r.2 with
    | Except.error e => Except.error e
    | Except.ok (mh, mi, log2) =>
      let fin := enrichAll projById mi mh insts
      Except.ok (outputRecords mi fin, fin, log2 ++ [LogEvent.debugCheckedInstances])

/-! ### Association-list lemmas -/

theorem dlookup_dinsert {β : Type} (k k' : String) (v : β) (m : List (String × β)) :
    dlookup k (dinsert k' v m) = if k' = k then some v else dlookup k m := by
  induction m with
  | nil => simp [dinsert, dlookup]
  | cons p rest ih =>
    simp only [dinsert]
    by_cases h : p.1 = k'
    · rw [if_pos h]
      by_cases h2 : k' = k
      · simp [dlookup, h2]
      · have h3 : ¬ p.1 = k := fun he => h2 (h.symm.trans he)
        simp [dlookup, h2, h3]
    · rw [if_neg h]
      by_cases h2 : p.1 = k
      · have h3 : ¬ k' = k := fun he => h (h2.trans he.symm)
        simp [dlookup, h2, h3]
      · simp [dlookup, h2, ih]

theorem dlookup_mem {β : Type} {k : String} {v : β} : ∀ {m : List (String × β)},
    dlookup k m = some v → (k, v) ∈ m := by
  intro m
  induction m with
  | nil => intro h; simp [dlookup] at h
  | cons p rest ih =>
    intro h
    simp only [dlookup] at h
    split at h
    · rename_i he
      cases h
      have hp : (k, p.2) = p := by
        cases p
        simp_all
      rw [hp]
      exact List.mem_cons_self _ _
    · exact List.mem_cons_of_mem _ (ih h)

theorem isSome_dlookup_of_mem {β : Type} {p : String × β} : ∀ {m : List (String × β)},
    p ∈ m → (dlookup p.1 m).isSome = true := by
  intro m
  induction m with
  | nil => intro h; cases h
  | cons q rest ih =>
    intro h
    rcases List.mem_cons.mp h with h1 | h1
    · simp [dlookup, h1]
    · by_cases he : q.1 = p.1
      · simp [dlookup, he]
      · simp [dlookup, he, ih h1]

theorem dlookup_of_mem_nodup {β : Type} {k : String} {v : β} : ∀ {m : List (String × β)},
    (m.map Prod.fst).Nodup → (k, v) ∈ m → dlookup k m = some v := by
  intro m
  induction m with
  | nil => intro _ h; cases h
  | cons q rest ih =>
    intro hnd h
    simp only [List.map_cons, List.nodup_cons] at hnd
    rcases List.mem_cons.mp h with h1 | h1
    · simp [dlookup, ← h1]
    · have : q.1 ≠ k := by
        intro he
        exact hnd.1 (he ▸ (List.mem_map.mpr ⟨(k, v), h1, rfl⟩))
      simp [dlookup, this, ih hnd.2 h1]

theorem mem_dinsert {β : Type} {q : String × β} (k : String) (v : β) :
    ∀ {m : List (String × β)}, q ∈ dinsert k v m → q = (k, v) ∨ q ∈ m := by
  intro m
  induction m with
  | nil => intro h; simp [dinsert] at h; left; exact h
  | cons p rest ih =>
    intro h
    simp only [dinsert] at h
    split at h
    · rcases List.mem_cons.mp h with h1 | h1
      · left; exact h1
      · right; exact List.mem_cons_of_mem _ h1
    · rcases List.mem_cons.mp h with h1 | h1
      · right; exact h1 ▸ List.mem_cons_self _ _
      · rcases ih h1 with h2 | h2
        · left; exact h2
        · right; exact List.mem_cons_of_mem _ h2

theorem keys_dinsert_nodup {β : Type} (k : String) (v : β) : ∀ {m : List (String × β)},
    (m.map Prod.fst).Nodup → ((dinsert k v m).map Prod.fst).Nodup := by
  intro m
  induction m with
  | nil =>
    intro _
    simp [dinsert]
  | cons p rest ih =>
    intro hnd
    simp only [List.map_cons, List.nodup_cons] at hnd
    by_cases he : p.1 = k
    · simp only [dinsert, he, if_pos]
      simp only [List.map_cons, List.nodup_cons]
      exact ⟨he ▸ hnd.1, hnd.2⟩
    · simp only [dinsert, he, if_neg, not_false_iff]
      simp only [List.map_cons, List.nodup_cons]
      constructor
      · intro hmem
        rcases List.mem_map.mp hmem with ⟨q, hq, hq1⟩
        rcases mem_dinsert k v hq with h1 | h1
        · exact he ((h1 ▸ hq1 : (k, v).1 = p.1)).symm
        · exact hnd.1 (List.mem_map.mpr ⟨q, h1, hq1⟩)
      · exact ih hnd.2

/-! ### Availability-zone check lemmas -/

theorem azCheck_eq_none : ∀ {hs : List Hypervisor},
    azCheck hs = none ↔ ∀ h ∈ hs, azFalsy h.availability_zone = false := by
  intro hs
  induction hs with
  | nil => simp [azCheck]
  | cons h rest ih =>
    cases hf : azFalsy h.availability_zone with
    | true => simp [azCheck, hf]
    | false => simp [azCheck, hf, ih]

theorem azCheck_eq_some : ∀ {hs : List Hypervisor} {hid : String},
    azCheck hs = some hid →
    ∃ h, h ∈ hs ∧ azFalsy h.availability_zone = true ∧ h.id = hid := by
  intro hs
  induction hs with
  | nil => intro hid h; simp [azCheck] at h
  | cons h rest ih =>
    intro hid hc
    simp only [azCheck] at hc
    split at hc
    · rename_i hf
      exact ⟨h, List.mem_cons_self _ _, hf, by cases hc; rfl⟩
    · rcases ih hc with ⟨h', hm, hf, hi⟩
      exact ⟨h', List.mem_cons_of_mem _ hm, hf, hi⟩

theorem azCheck_isSome_of_mem {hs : List Hypervisor} {h : Hypervisor}
    (hm : h ∈ hs) (hf : azFalsy h.availability_zone = true) :
    ∃ hid, azCheck hs = some hid := by
  cases hc : azCheck hs with
  | some hid => exact ⟨hid, rfl⟩
  | none =>
    have := azCheck_eq_none.mp hc h hm
    rw [hf] at this
    cases this

/-! ### Short-name resolver lemmas -/

theorem buildHypShortAux_cons_new {h : Hypervisor} {m : List (String × Hypervisor)}
    (rest : List Hypervisor) (log : List LogEvent)
    (hd : dlookup (shortName h.hostname) m = none) :
    buildHypShortAux (h :: rest) m log =
      buildHypShortAux rest (dinsert (shortName h.hostname) h m) log := by
  simp [buildHypShortAux, hd]

theorem buildHypShortAux_cons_keep {h h0 : Hypervisor} {m : List (String × Hypervisor)}
    (rest : List Hypervisor) (log : List LogEvent)
    (hd : dlookup (shortName h.hostname) m = some h0)
    (hlt : h.last_seen < h0.last_seen) :
    buildHypShortAux (h :: rest) m log =
      buildHypShortAux rest m
        (log ++ [LogEvent.warnDupShortName (shortName h.hostname) h0.id h.id]) := by
  simp [buildHypShortAux, hd, hlt]

theorem buildHypShortAux_cons_replace {h h0 : Hypervisor} {m : List (String × Hypervisor)}
    (rest : List Hypervisor) (log : List LogEvent)
    (hd : dlookup (shortName h.hostname) m = some h0)
    (hlt : ¬ h.last_seen < h0.last_seen) :
    buildHypShortAux (h :: rest) m log =
      buildHypShortAux rest (dinsert (shortName h.hostname) h m)
        (log ++ [LogEvent.warnDupShortName (shortName h.hostname) h0.id h.id]) := by
  simp [buildHypShortAux, hd, hlt]

theorem buildHypShortAux_fst_log : ∀ (hs : List Hypervisor) (m : List (String × Hypervisor))
    (log log' : List LogEvent),
    (buildHypShortAux hs m log).1 = (buildHypShortAux hs m log').1 := by
  intro hs
  induction hs with
  | nil => intro m log log'; rfl
  | cons h rest ih =>
    intro m log log'
    cases hd : dlookup (shortName h.hostname) m with
    | none =>
      rw [buildHypShortAux_cons_new rest log hd, buildHypShortAux_cons_new rest log' hd]
      exact ih _ _ _
    | some h0 =>
      by_cases hlt : h.last_seen < h0.last_seen
      · rw [buildHypShortAux_cons_keep rest log hd hlt,
            buildHypShortAux_cons_keep rest log' hd hlt]
        exact ih _ _ _
      · rw [buildHypShortAux_cons_replace rest log hd hlt,
            buildHypShortAux_cons_replace rest log' hd hlt]
        exact ih _ _ _

theorem buildHypShortAux_log_split : ∀ (hs : List Hypervisor) (m : List (String × Hypervisor))
    (log : List LogEvent),
    (buildHypShortAux hs m log).2 = log ++ (buildHypShortAux hs m []).2 := by
  intro hs
  induction hs with
  | nil => intro m log; simp [buildHypShortAux]
  | cons h rest ih =>
    intro m log
    cases hd : dlookup (shortName h.hostname) m with
    | none =>
      rw [buildHypShortAux_cons_new rest log hd, buildHypShortAux_cons_new rest [] hd]
      exact ih _ _
    | some h0 =>
      by_cases hlt : h.last_seen < h0.last_seen
      · rw [buildHypShortAux_cons_keep rest log hd hlt,
            buildHypShortAux_cons_keep rest [] hd hlt,
            ih _ (log ++ [LogEvent.warnDupShortName (shortName h.hostname) h0.id h.id]),
            ih _ ([] ++ [LogEvent.warnDupShortName (shortName h.hostname) h0.id h.id])]
        simp
      · rw [buildHypShortAux_cons_replace rest log hd hlt,
            buildHypShortAux_cons_replace rest [] hd hlt,
            ih _ (log ++ [LogEvent.warnDupShortName (shortName h.hostname) h0.id h.id]),
            ih _ ([] ++ [LogEvent.warnDupShortName (shortName h.hostname) h0.id h.id])]
        simp

theorem buildHypShortAux_log_events : ∀ (hs : List Hypervisor) (m : List (String × Hypervisor))
    (log : List LogEvent) (e : LogEvent), e ∈ (buildHypShortAux hs m log).2 →
    e ∈ log ∨ ∃ s a b, e = LogEvent.warnDupShortName s a b := by
  intro hs
  induction hs with
  | nil => intro m log e h; left; exact h
  | cons h rest ih =>
    intro m log e hm
    cases hd : dlookup (shortName h.hostname) m with
    | none =>
      rw [buildHypShortAux_cons_new rest log hd] at hm
      exact ih _ _ _ hm
    | some h0 =>
      by_cases hlt : h.last_seen < h0.last_seen
      · rw [buildHypShortAux_cons_keep rest log hd hlt] at hm
        rcases ih _ _ _ hm with h1 | h1
        · rcases List.mem_append.mp h1 with h2 | h2
          · left; exact h2
          · right
            rcases List.mem_singleton.mp h2 with rfl
            exact ⟨_, _, _, rfl⟩
        · right; exact h1
      · rw [buildHypShortAux_cons_replace rest log hd hlt] at hm
        rcases ih _ _ _ hm with h1 | h1
        · rcases List.mem_append.mp h1 with h2 | h2
          · left; exact h2
          · right
            rcases List.mem_singleton.mp h2 with rfl
            exact ⟨_, _, _, rfl⟩
        · right; exact h1

theorem buildHypShortAux_mem_src : ∀ (hs : List Hypervisor) (m : List (String × Hypervisor))
    (log : List LogEvent) (p : String × Hypervisor), p ∈ (buildHypShortAux hs m log).1 →
    p ∈ m ∨ p.2 ∈ hs := by
  intro hs
  induction hs with
  | nil => intro m log p h; left; exact h
  | cons h rest ih =>
    intro m log p hm
    cases hd : dlookup (shortName h.hostname) m with
    | none =>
      rw [buildHypShortAux_cons_new rest log hd] at hm
      rcases ih _ _ _ hm with h1 | h1
      · rcases mem_dinsert _ _ h1 with h2 | h2
        · right; rw [h2]; exact List.mem_cons_self _ _
        · left; exact h2
      · right; exact List.mem_cons_of_mem _ h1
    | some h0 =>
      by_cases hlt : h.last_seen < h0.last_seen
      · rw [buildHypShortAux_cons_keep rest log hd hlt] at hm
        rcases ih _ _ _ hm with h1 | h1
        · left; exact h1
        · right; exact List.mem_cons_of_mem _ h1
      · rw [buildHypShortAux_cons_replace rest log hd hlt] at hm
        rcases ih _ _ _ hm with h1 | h1
        · rcases mem_dinsert _ _ h1 with h2 | h2
          · right; rw [h2]; exact List.mem_cons_self _ _
          · left; exact h2
        · right; exact List.mem_cons_of_mem _ h1

/-- The duel one newcomer plays against the hypervisor currently holding
a short-name slot: the stored one survives only a strictly smaller
newcomer, otherwise the newcomer takes the slot. -/
def collideStep (cur : Option Hypervisor) (h : Hypervisor) : Hypervisor :=
  match cur with
  | none => h
  | some h0 => if h.last_seen < h0.last_seen then h0 else h

/-- The resolver's behaviour along one short-name slot, as a fold over
the hypervisors that map to that slot. -/
def collideFold : Option Hypervisor → List Hypervisor → Option Hypervisor
  | cur, [] => cur
  | cur, h :: rest => collideFold (some (collideStep cur h)) rest

theorem buildHypShortAux_dlookup (s : String) : ∀ (hs : List Hypervisor)
    (m : List (String × Hypervisor)) (log : List LogEvent),
    dlookup s (buildHypShortAux hs m log).1 =
      collideFold (dlookup s m) (hs.filter (fun h => shortName h.hostname = s)) := by
  intro hs
  induction hs with
  | nil =>
    intro m log
    simp [buildHypShortAux, collideFold]
  | cons h rest ih =>
    intro m log
    by_cases hse : shortName h.hostname = s
    · have hfil : (h :: rest).filter (fun x => shortName x.hostname = s) =
          h :: rest.filter (fun x => shortName x.hostname = s) := by
        simp [List.filter_cons, hse]
      rw [hfil]
      cases hd : dlookup (shortName h.hostname) m with
      | none =>
        rw [buildHypShortAux_cons_new rest log hd, ih, dlookup_dinsert]
        rw [hse] at hd
        simp [collideFold, collideStep, hse, hd]
      | some h0 =>
        by_cases hlt : h.last_seen < h0.last_seen
        · rw [buildHypShortAux_cons_keep rest log hd hlt, ih]
          rw [hse] at hd
          simp [collideFold, collideStep, hd, hlt]
        · rw [buildHypShortAux_cons_replace rest log hd hlt, ih, dlookup_dinsert]
          rw [hse] at hd
          simp [collideFold, collideStep, hse, hd, hlt]
    · have hfil : (h :: rest).filter (fun x => shortName x.hostname = s) =
          rest.filter (fun x => shortName x.hostname = s) := by
        simp [List.filter_cons, hse]
      rw [hfil]
      cases hd : dlookup (shortName h.hostname) m with
      | none =>
        rw [buildHypShortAux_cons_new rest log hd, ih, dlookup_dinsert, if_neg hse]
      | some h0 =>
        by_cases hlt : h.last_seen < h0.last_seen
        · rw [buildHypShortAux_cons_keep rest log hd hlt, ih]
        · rw [buildHypShortAux_cons_replace rest log hd hlt, ih, dlookup_dinsert,
              if_neg hse]

/-! ### Join-loop predicates and characterization -/

/-- Whether the per-instance loop can get past the hypervisor check for
this record: a null reference is fine (skip with a warning), a non-null
one must resolve through the short-name table. -/
def hypOk (hypShort : List (String × Hypervisor)) (i : Inst) : Bool :=
  match i.hypervisor with
  | none => true
  | some ref => (dlookup (shortName ref) hypShort).isSome

/-- The hypervisor an instance record resolves to, when its reference is
non-null and present in the short-name table. -/
def resolvedHyp (hypShort : List (String × Hypervisor)) (i : Inst) : Option Hypervisor :=
  match i.hypervisor with
  | none => none
  | some ref => dlookup (shortName ref) hypShort

/-- Whether a record survives the join: non-null resolvable hypervisor
reference and a known project id. -/
def survB (hypShort : List (String × Hypervisor)) (projById : List (String × Project))
    (i : Inst) : Bool :=
  (resolvedHyp hypShort i).isSome && (dlookup i.project_id projById).isSome

/-- The warnings the join loop logs for one record (none when it survives;
the unresolvable-hypervisor case aborts instead and is handled apart). -/
def recWarnings (hypShort : List (String × Hypervisor)) (projById : List (String × Project))
    (i : Inst) : List LogEvent :=
  match i.hypervisor with
  | none => [LogEvent.warnNoHypervisor i.id]
  | some ref =>
    match dlookup (shortName ref) hypShort with
    | none => []
    | some _ =>
      if (dlookup i.project_id projById).isSome then []
      else [LogEvent.warnBadProject i.id i.project_id]

/-- All warnings the join loop logs over a record sequence. -/
def joinWarnings (hypShort : List (String × Hypervisor)) (projById : List (String × Project)) :
    List (Nat × Inst) → List LogEvent
  | [] => []
  | p :: rest =>
    recWarnings hypShort projById p.2 ++ joinWarnings hypShort projById rest

/-- The two id-keyed dicts the join loop accumulates, as a fold. -/
def joinAccum (hypShort : List (String × Hypervisor)) (projById : List (String × Project)) :
    List (Nat × Inst) → List (String × Hypervisor) × List (String × Nat) →
    List (String × Hypervisor) × List (String × Nat)
  | [], acc => acc
  | p :: rest, acc =>
    match resolvedHyp hypShort p.2, dlookup p.2.project_id projById with
    | some hyp, some _ =>
      joinAccum hypShort projById rest (dinsert p.2.id hyp acc.1, dinsert p.2.id p.1 acc.2)
    | some _, none => joinAccum hypShort projById rest acc
    | none, _ => joinAccum hypShort projById rest acc

theorem joinLoop_cons_noHyp {hypShort : List (String × Hypervisor)}
    {projById : List (String × Project)} {p : Nat × Inst}
    (rest : List (Nat × Inst)) (mh : List (String × Hypervisor)) (mi : List (String × Nat))
    (log : List LogEvent) (h1 : p.2.hypervisor = none) :
    joinLoop hypShort projById (p :: rest) mh mi log =
      joinLoop hypShort projById rest mh mi (log ++ [LogEvent.warnNoHypervisor p.2.id]) := by
  simp [joinLoop, h1]

theorem joinLoop_cons_fatal {hypShort : List (String × Hypervisor)}
    {projById : List (String × Project)} {p : Nat × Inst} {ref : String}
    (rest : List (Nat × Inst)) (mh : List (String × Hypervisor)) (mi : List (String × Nat))
    (log : List LogEvent) (h1 : p.2.hypervisor = some ref)
    (h2 : dlookup (shortName ref) hypShort = none) :
    joinLoop hypShort projById (p :: rest) mh mi log =
      Except.error (Fatal.unknownHypervisor p.2.id,
        log ++ [LogEvent.errorUnknownHypervisor p.2.id]) := by
  simp [joinLoop, h1, h2]

theorem joinLoop_cons_badProj {hypShort : List (String × Hypervisor)}
    {projById : List (String × Project)} {p : Nat × Inst} {ref : String} {hyp : Hypervisor}
    (rest : List (Nat × Inst)) (mh : List (String × Hypervisor)) (mi : List (String × Nat))
    (log : List LogEvent) (h1 : p.2.hypervisor = some ref)
    (h2 : dlookup (shortName ref) hypShort = some hyp)
    (h3 : dlookup p.2.project_id projById = none) :
    joinLoop hypShort projById (p :: rest) mh mi log =
      joinLoop hypShort projById rest mh mi
        (log ++ [LogEvent.warnBadProject p.2.id p.2.project_id]) := by
  simp [joinLoop, h1, h2, h3]

theorem joinLoop_cons_keep {hypShort : List (String × Hypervisor)}
    {projById : List (String × Project)} {p : Nat × Inst} {ref : String} {hyp : Hypervisor}
    {pr : Project}
    (rest : List (Nat × Inst)) (mh : List (String × Hypervisor)) (mi : List (String × Nat))
    (log : List LogEvent) (h1 : p.2.hypervisor = some ref)
    (h2 : dlookup (shortName ref) hypShort = some hyp)
    (h3 : dlookup p.2.project_id projById = some pr) :
    joinLoop hypShort projById (p :: rest) mh mi log =
      joinLoop hypShort projById rest (dinsert p.2.id hyp mh) (dinsert p.2.id p.1 mi) log := by
  simp [joinLoop, h1, h2, h3]

theorem joinAccum_cons_keep {hypShort : List (String × Hypervisor)}
    {projById : List (String × Project)} {p : Nat × Inst} {hyp : Hypervisor} {pr : Project}
    (rest : List (Nat × Inst)) (acc : List (String × Hypervisor) × List (String × Nat))
    (h1 : resolvedHyp hypShort p.2 = some hyp)
    (h2 : dlookup p.2.project_id projById = some pr) :
    joinAccum hypShort projById (p :: rest) acc =
      joinAccum hypShort projById rest (dinsert p.2.id hyp acc.1, dinsert p.2.id p.1 acc.2) := by
  simp [joinAccum, h1, h2]

theorem joinAccum_cons_skip {hypShort : List (String × Hypervisor)}
    {projById : List (String × Project)} {p : Nat × Inst}
    (rest : List (Nat × Inst)) (acc : List (String × Hypervisor) × List (String × Nat))
    (h1 : survB hypShort projById p.2 = false) :
    joinAccum hypShort projById (p :: rest) acc = joinAccum hypShort projById rest acc := by
  cases hr : resolvedHyp hypShort p.2 with
  | none => simp [joinAccum, hr]
  | some hyp =>
    cases hp : dlookup p.2.project_id projById with
    | none => simp [joinAccum, hr, hp]
    | some pr =>
      rw [survB, hr, hp] at h1
      simp at h1

theorem hypOk_false_iff {hypShort : List (String × Hypervisor)} {i : Inst} :
    hypOk hypShort i = false ↔
      ∃ ref, i.hypervisor = some ref ∧ dlookup (shortName ref) hypShort = none := by
  cases hi : i.hypervisor with
  | none => simp [hypOk, hi]
  | some ref =>
    cases hd : dlookup (shortName ref) hypShort with
    | none => simp [hypOk, hi, hd]
    | some hyp => simp [hypOk, hi, hd]

theorem joinLoop_ok (hypShort : List (String × Hypervisor))
    (projById : List (String × Project)) : ∀ (l : List (Nat × Inst))
    (mh : List (String × Hypervisor)) (mi : List (String × Nat)) (log : List LogEvent),
    (∀ p ∈ l, hypOk hypShort p.2 = true) →
    joinLoop hypShort projById l mh mi log =
      Except.ok ((joinAccum hypShort projById l (mh, mi)).1,
                 (joinAccum hypShort projById l (mh, mi)).2,
                 log ++ joinWarnings hypShort projById l) := by
  intro l
  induction l with
  | nil => intro mh mi log _; simp [joinLoop, joinAccum, joinWarnings]
  | cons p rest ih =>
    intro mh mi log hOk
    have hOkRest : ∀ q ∈ rest, hypOk hypShort q.2 = true :=
      fun q hq => hOk q (List.mem_cons_of_mem _ hq)
    cases hi : p.2.hypervisor with
    | none =>
      rw [joinLoop_cons_noHyp rest mh mi log hi, ih _ _ _ hOkRest]
      have hacc : joinAccum hypShort projById (p :: rest) (mh, mi) =
          joinAccum hypShort projById rest (mh, mi) := by
        simp [joinAccum, resolvedHyp, hi]
      rw [hacc]
      simp [joinWarnings, recWarnings, hi]
    | some ref =>
      have hOkP := hOk p (List.mem_cons_self _ _)
      simp only [hypOk, hi] at hOkP
      cases hd : dlookup (shortName ref) hypShort with
      | none => rw [hd] at hOkP; simp at hOkP
      | some hyp =>
        cases hp : dlookup p.2.project_id projById with
        | none =>
          rw [joinLoop_cons_badProj rest mh mi log hi hd hp, ih _ _ _ hOkRest]
          have hacc : joinAccum hypShort projById (p :: rest) (mh, mi) =
              joinAccum hypShort projById rest (mh, mi) := by
            simp [joinAccum, resolvedHyp, hi, hd, hp]
          rw [hacc]
          simp [joinWarnings, recWarnings, hi, hd, hp]
        | some pr =>
          rw [joinLoop_cons_keep rest mh mi log hi hd hp, ih _ _ _ hOkRest]
          have hacc : joinAccum hypShort projById (p :: rest) (mh, mi) =
              joinAccum hypShort projById rest
                (dinsert p.2.id hyp mh, dinsert p.2.id p.1 mi) := by
            simp [joinAccum, resolvedHyp, hi, hd, hp]
          rw [hacc]
          simp [joinWarnings, recWarnings, hi, hd, hp]

theorem joinLoop_err (hypShort : List (String × Hypervisor))
    (projById : List (String × Project)) : ∀ (l : List (Nat × Inst))
    (mh : List (String × Hypervisor)) (mi : List (String × Nat)) (log : List LogEvent),
    (∃ p ∈ l, hypOk hypShort p.2 = false) →
    ∃ q log2, q ∈ l ∧ hypOk hypShort q.2 = false ∧
      joinLoop hypShort projById l mh mi log =
        Except.error (Fatal.unknownHypervisor q.2.id, log2) := by
  intro l
  induction l with
  | nil => intro mh mi log h; rcases h with ⟨p, hp, _⟩; cases hp
  | cons p rest ih =>
    intro mh mi log hex
    cases hi : p.2.hypervisor with
    | none =>
      have hrest : ∃ q ∈ rest, hypOk hypShort q.2 = false := by
        rcases hex with ⟨q, hq, hfq⟩
        rcases List.mem_cons.mp hq with rfl | hq2
        · simp [hypOk, hi] at hfq
        · exact ⟨q, hq2, hfq⟩
      rcases ih mh mi (log ++ [LogEvent.warnNoHypervisor p.2.id]) hrest with
        ⟨q, log2, hq, hfq, heq⟩
      exact ⟨q, log2, List.mem_cons_of_mem _ hq, hfq,
        by rw [joinLoop_cons_noHyp rest mh mi log hi]; exact heq⟩
    | some ref =>
      cases hd : dlookup (shortName ref) hypShort with
      | none =>
        refine ⟨p, log ++ [LogEvent.errorUnknownHypervisor p.2.id],
          List.mem_cons_self _ _, ?_, joinLoop_cons_fatal rest mh mi log hi hd⟩
        simp [hypOk, hi, hd]
      | some hyp =>
        have hrest : ∃ q ∈ rest, hypOk hypShort q.2 = false := by
          rcases hex with ⟨q, hq, hfq⟩
          rcases List.mem_cons.mp hq with rfl | hq2
          · simp [hypOk, hi, hd] at hfq
          · exact ⟨q, hq2, hfq⟩
        cases hp : dlookup p.2.project_id projById with
        | none =>
          rcases ih mh mi (log ++ [LogEvent.warnBadProject p.2.id p.2.project_id]) hrest with
            ⟨q, log2, hq, hfq, heq⟩
          exact ⟨q, log2, List.mem_cons_of_mem _ hq, hfq,
            by rw [joinLoop_cons_badProj rest mh mi log hi hd hp]; exact heq⟩
        | some pr =>
          rcases ih (dinsert p.2.id hyp mh) (dinsert p.2.id p.1 mi) log hrest with
            ⟨q, log2, hq, hfq, heq⟩
          exact ⟨q, log2, List.mem_cons_of_mem _ hq, hfq,
            by rw [joinLoop_cons_keep rest mh mi log hi hd hp]; exact heq⟩

/-! ### Enumeration lemmas -/

theorem enumerate_snd_mem : ∀ {l : List Inst} {p : Nat × Inst} (n : Nat),
    p ∈ enumerate n l → p.2 ∈ l := by
  intro l
  induction l with
  | nil => intro p n h; cases h
  | cons i rest ih =>
    intro p n h
    rcases List.mem_cons.mp h with rfl | h2
    · exact List.mem_cons_self _ _
    · exact List.mem_cons_of_mem _ (ih _ h2)

theorem enumerate_mem_getElem : ∀ {l : List Inst} (n : Nat) {p : Nat × Inst},
    p ∈ enumerate n l → n ≤ p.1 ∧ l[p.1 - n]? = some p.2 := by
  intro l
  induction l with
  | nil => intro n p h; cases h
  | cons i rest ih =>
    intro n p h
    rcases List.mem_cons.mp h with rfl | h2
    · simp
    · rcases ih (n + 1) h2 with ⟨h3, h4⟩
      constructor
      · omega
      · have hsub : p.1 - n = (p.1 - (n + 1)) + 1 := by omega
        rw [hsub]
        simpa using h4

theorem mem_enumerate_of_mem : ∀ {l : List Inst} {i : Inst} (n : Nat),
    i ∈ l → ∃ idx, (idx, i) ∈ enumerate n l := by
  intro l
  induction l with
  | nil => intro i n h; cases h
  | cons x rest ih =>
    intro i n h
    rcases List.mem_cons.mp h with rfl | h2
    · exact ⟨n, List.mem_cons_self _ _⟩
    · rcases ih (n + 1) h2 with ⟨idx, hm⟩
      exact ⟨idx, List.mem_cons_of_mem _ hm⟩

/-! ### Join-accumulator invariants -/

/-- The invariant tying the two id-keyed dicts the join loop builds to the
fetched instance list: every entry of `instance_by_id` points at a fetched
record with that id whose hypervisor reference resolves to the hypervisor
stored under the same key in `instance_hypervisor`, and whose project id
is known. -/
def JoinInv (hypShort : List (String × Hypervisor)) (projById : List (String × Project))
    (insts : List Inst) (mh : List (String × Hypervisor)) (mi : List (String × Nat)) : Prop :=
  ∀ iid idx, dlookup iid mi = some idx → ∃ rec hyp,
    insts[idx]? = some rec ∧ rec.id = iid ∧ resolvedHyp hypShort rec = some hyp ∧
    dlookup iid mh = some hyp ∧ (dlookup rec.project_id projById).isSome = true

theorem joinAccum_inv (hypShort : List (String × Hypervisor))
    (projById : List (String × Project)) (insts : List Inst) :
    ∀ (l : List (Nat × Inst)) (acc : List (String × Hypervisor) × List (String × Nat)),
    (∀ p ∈ l, insts[p.1]? = some p.2) →
    JoinInv hypShort projById insts acc.1 acc.2 →
    JoinInv hypShort projById insts (joinAccum hypShort projById l acc).1
      (joinAccum hypShort projById l acc).2 := by
  intro l
  induction l with
  | nil =>
    intro acc _ hInv
    simpa [joinAccum] using hInv
  | cons p rest ih =>
    intro acc hmem hInv
    have hmemRest : ∀ q ∈ rest, insts[q.1]? = some q.2 :=
      fun q hq => hmem q (List.mem_cons_of_mem _ hq)
    cases hr : resolvedHyp hypShort p.2 with
    | none =>
      rw [joinAccum_cons_skip rest acc (by simp [survB, hr])]
      exact ih acc hmemRest hInv
    | some hyp =>
      cases hpj : dlookup p.2.project_id projById with
      | none =>
        rw [joinAccum_cons_skip rest acc (by simp [survB, hr, hpj])]
        exact ih acc hmemRest hInv
      | some pr =>
        rw [joinAccum_cons_keep rest acc hr hpj]
        apply ih _ hmemRest
        intro iid idx hlk
        rw [dlookup_dinsert] at hlk
        by_cases he : p.2.id = iid
        · rw [if_pos he] at hlk
          cases hlk
          exact ⟨p.2, hyp, hmem p (List.mem_cons_self _ _), he, hr,
            by rw [dlookup_dinsert, if_pos he], by simp [hpj]⟩
        · rw [if_neg he] at hlk
          rcases hInv iid idx hlk with ⟨rec, hyp2, h1, h2, h3, h4, h5⟩
          exact ⟨rec, hyp2, h1, h2, h3, by rw [dlookup_dinsert, if_neg he]; exact h4, h5⟩

theorem joinAccum_keys_origin (hypShort : List (String × Hypervisor))
    (projById : List (String × Project)) :
    ∀ (l : List (Nat × Inst)) (acc : List (String × Hypervisor) × List (String × Nat))
    (iid : String),
    (dlookup iid (joinAccum hypShort projById l acc).2).isSome = true →
    (dlookup iid acc.2).isSome = true ∨
      ∃ p, p ∈ l ∧ p.2.id = iid ∧ survB hypShort projById p.2 = true := by
  intro l
  induction l with
  | nil =>
    intro acc iid h
    left
    simpa [joinAccum] using h
  | cons p rest ih =>
    intro acc iid h
    cases hr : resolvedHyp hypShort p.2 with
    | none =>
      rw [joinAccum_cons_skip rest acc (by simp [survB, hr])] at h
      rcases ih acc iid h with h1 | ⟨q, hq, hq2, hq3⟩
      · left; exact h1
      · right; exact ⟨q, List.mem_cons_of_mem _ hq, hq2, hq3⟩
    | some hyp =>
      cases hpj : dlookup p.2.project_id projById with
      | none =>
        rw [joinAccum_cons_skip rest acc (by simp [survB, hr, hpj])] at h
        rcases ih acc iid h with h1 | ⟨q, hq, hq2, hq3⟩
        · left; exact h1
        · right; exact ⟨q, List.mem_cons_of_mem _ hq, hq2, hq3⟩
      | some pr =>
        rw [joinAccum_cons_keep rest acc hr hpj] at h
        rcases ih _ iid h with h1 | ⟨q, hq, hq2, hq3⟩
        · rw [dlookup_dinsert] at h1
          by_cases he : p.2.id = iid
          · right
            exact ⟨p, List.mem_cons_self _ _, he, by simp [survB, hr, hpj]⟩
          · rw [if_neg he] at h1
            left
            exact h1
        · right; exact ⟨q, List.mem_cons_of_mem _ hq, hq2, hq3⟩

theorem joinAccum_keys_sync (hypShort : List (String × Hypervisor))
    (projById : List (String × Project)) :
    ∀ (l : List (Nat × Inst)) (acc : List (String × Hypervisor) × List (String × Nat)),
    (∀ iid, (dlookup iid acc.1).isSome = (dlookup iid acc.2).isSome) →
    ∀ iid, (dlookup iid (joinAccum hypShort projById l acc).1).isSome =
      (dlookup iid (joinAccum hypShort projById l acc).2).isSome := by
  intro l
  induction l with
  | nil =>
    intro acc hsync iid
    simpa [joinAccum] using hsync iid
  | cons p rest ih =>
    intro acc hsync iid
    cases hr : resolvedHyp hypShort p.2 with
    | none =>
      rw [joinAccum_cons_skip rest acc (by simp [survB, hr])]
      exact ih acc hsync iid
    | some hyp =>
      cases hpj : dlookup p.2.project_id projById with
      | none =>
        rw [joinAccum_cons_skip rest acc (by simp [survB, hr, hpj])]
        exact ih acc hsync iid
      | some pr =>
        rw [joinAccum_cons_keep rest acc hr hpj]
        apply ih
        intro iid2
        rw [dlookup_dinsert, dlookup_dinsert]
        by_cases he : p.2.id = iid2
        · rw [if_pos he, if_pos he]
          rfl
        · rw [if_neg he, if_neg he]
          exact hsync iid2

theorem joinAccum_keys_nodup (hypShort : List (String × Hypervisor))
    (projById : List (String × Project)) :
    ∀ (l : List (Nat × Inst)) (acc : List (String × Hypervisor) × List (String × Nat)),
    (acc.1.map Prod.fst).Nodup → (acc.2.map Prod.fst).Nodup →
    ((joinAccum hypShort projById l acc).1.map Prod.fst).Nodup ∧
      ((joinAccum hypShort projById l acc).2.map Prod.fst).Nodup := by
  intro l
  induction l with
  | nil =>
    intro acc h1 h2
    simpa [joinAccum] using ⟨h1, h2⟩
  | cons p rest ih =>
    intro acc h1 h2
    cases hr : resolvedHyp hypShort p.2 with
    | none =>
      rw [joinAccum_cons_skip rest acc (by simp [survB, hr])]
      exact ih acc h1 h2
    | some hyp =>
      cases hpj : dlookup p.2.project_id projById with
      | none =>
        rw [joinAccum_cons_skip rest acc (by simp [survB, hr, hpj])]
        exact ih acc h1 h2
      | some pr =>
        rw [joinAccum_cons_keep rest acc hr hpj]
        exact ih _ (keys_dinsert_nodup _ _ h1) (keys_dinsert_nodup _ _ h2)

/-- The last record of the sequence that survives the join and carries the
given instance id: the one whose dict entries win the id slot. -/
def lastSurv (hypShort : List (String × Hypervisor)) (projById : List (String × Project))
    (x : String) : List (Nat × Inst) → Option (Nat × Inst)
  | [] => none
  | p :: rest =>
    match lastSurv hypShort projById x rest with
    | some q => some q
    | none => if survB hypShort projById p.2 && (p.2.id == x) then some p else none

theorem joinAccum_dlookup_last (hypShort : List (String × Hypervisor))
    (projById : List (String × Project)) (x : String) :
    ∀ (l : List (Nat × Inst)) (acc : List (String × Hypervisor) × List (String × Nat)),
    dlookup x (joinAccum hypShort projById l acc).2 =
      (match lastSurv hypShort projById x l with
       | some q => some q.1
       | none => dlookup x acc.2) ∧
    dlookup x (joinAccum hypShort projById l acc).1 =
      (match lastSurv hypShort projById x l with
       | some q => resolvedHyp hypShort q.2
       | none => dlookup x acc.1) := by
  intro l
  induction l with
  | nil =>
    intro acc
    simp [joinAccum, lastSurv]
  | cons p rest ih =>
    intro acc
    cases hsv : survB hypShort projById p.2 with
    | false =>
      rw [joinAccum_cons_skip rest acc hsv]
      rcases ih acc with ⟨ih1, ih2⟩
      cases hls : lastSurv hypShort projById x rest with
      | some q =>
        rw [hls] at ih1 ih2
        simp [lastSurv, hls, ih1, ih2]
      | none =>
        rw [hls] at ih1 ih2
        simp [lastSurv, hls, hsv, ih1, ih2]
    | true =>
      have hr : ∃ hyp, resolvedHyp hypShort p.2 = some hyp := by
        cases hr2 : resolvedHyp hypShort p.2 with
        | none => rw [survB, hr2] at hsv; simp at hsv
        | some hyp => exact ⟨hyp, rfl⟩
      rcases hr with ⟨hyp, hr⟩
      have hpj : ∃ pr, dlookup p.2.project_id projById = some pr := by
        cases hpj2 : dlookup p.2.project_id projById with
        | none => rw [survB, hr, hpj2] at hsv; simp at hsv
        | some pr => exact ⟨pr, rfl⟩
      rcases hpj with ⟨pr, hpj⟩
      rw [joinAccum_cons_keep rest acc hr hpj]
      rcases ih (dinsert p.2.id hyp acc.1, dinsert p.2.id p.1 acc.2) with ⟨ih1, ih2⟩
      cases hls : lastSurv hypShort projById x rest with
      | some q =>
        rw [hls] at ih1 ih2
        simp [lastSurv, hls, ih1, ih2]
      | none =>
        rw [hls] at ih1 ih2
        by_cases hex : p.2.id = x
        · constructor
          · rw [ih1, dlookup_dinsert, if_pos hex]
            simp [lastSurv, hls, hsv, hex]
          · rw [ih2, dlookup_dinsert, if_pos hex]
            simp [lastSurv, hls, hsv, hex, hr]
        · constructor
          · rw [ih1, dlookup_dinsert, if_neg hex]
            simp [lastSurv, hls, hsv, hex]
          · rw [ih2, dlookup_dinsert, if_neg hex]
            simp [lastSurv, hls, hsv, hex]

/-! ### Enrichment-phase lemmas -/

theorem set_of_getElem? {α : Type} : ∀ (l : List α) (n : Nat) (a : α),
    l[n]? = some a → l.set n a = l := by
  intro l
  induction l with
  | nil => intro n a h; simp at h
  | cons x rest ih =>
    intro n a h
    cases n with
    | zero =>
      simp at h
      simp [List.set, h]
    | succ m =>
      simp at h
      simp [List.set, ih m a h]

theorem enrichAll_cons_miss {projById : List (String × Project)} {mi : List (String × Nat)}
    {e : String × Hypervisor} (rest : List (String × Hypervisor)) (insts : List Inst)
    (h1 : dlookup e.1 mi = none) :
    enrichAll projById mi (e :: rest) insts = enrichAll projById mi rest insts := by
  simp [enrichAll, h1]

theorem enrichAll_cons_oob {projById : List (String × Project)} {mi : List (String × Nat)}
    {e : String × Hypervisor} {idx : Nat} (rest : List (String × Hypervisor))
    (insts : List Inst) (h1 : dlookup e.1 mi = some idx) (h2 : insts[idx]? = none) :
    enrichAll projById mi (e :: rest) insts = enrichAll projById mi rest insts := by
  simp [enrichAll, h1, h2]

theorem enrichAll_cons_set {projById : List (String × Project)} {mi : List (String × Nat)}
    {e : String × Hypervisor} {idx : Nat} {i : Inst} (rest : List (String × Hypervisor))
    (insts : List Inst) (h1 : dlookup e.1 mi = some idx) (h2 : insts[idx]? = some i) :
    enrichAll projById mi (e :: rest) insts =
      enrichAll projById mi rest (insts.set idx (enrichRec projById e.2 i)) := by
  simp [enrichAll, h1, h2]

theorem enrichAll_untouched (projById : List (String × Project)) (mi : List (String × Nat)) :
    ∀ (entries : List (String × Hypervisor)) (insts : List Inst) (j : Nat),
    (∀ e ∈ entries, dlookup e.1 mi ≠ some j) →
    (enrichAll projById mi entries insts)[j]? = insts[j]? := by
  intro entries
  induction entries with
  | nil => intro insts j _; rfl
  | cons e rest ih =>
    intro insts j hno
    have hnoRest : ∀ q ∈ rest, dlookup q.1 mi ≠ some j :=
      fun q hq => hno q (List.mem_cons_of_mem _ hq)
    cases h1 : dlookup e.1 mi with
    | none =>
      rw [enrichAll_cons_miss rest insts h1]
      exact ih insts j hnoRest
    | some idx =>
      have hne : idx ≠ j := by
        intro he
        exact hno e (List.mem_cons_self _ _) (he ▸ h1)
      cases h2 : insts[idx]? with
      | none =>
        rw [enrichAll_cons_oob rest insts h1 h2]
        exact ih insts j hnoRest
      | some i =>
        rw [enrichAll_cons_set rest insts h1 h2, ih _ j hnoRest,
            List.getElem?_set_ne hne]

theorem enrichAll_touched (projById : List (String × Project)) (mi : List (String × Nat)) :
    ∀ (entries : List (String × Hypervisor)) (insts : List Inst) (iid : String)
    (hyp : Hypervisor) (idx : Nat),
    (entries.map Prod.fst).Nodup →
    (iid, hyp) ∈ entries →
    dlookup iid mi = some idx →
    (∀ e ∈ entries, e.1 ≠ iid → dlookup e.1 mi ≠ some idx) →
    (enrichAll projById mi entries insts)[idx]? =
      (insts[idx]?).map (enrichRec projById hyp) := by
  intro entries
  induction entries with
  | nil => intro insts iid hyp idx _ hm; cases hm
  | cons e rest ih =>
    intro insts iid hyp idx hnd hm hlk hinj
    simp only [List.map_cons, List.nodup_cons] at hnd
    by_cases hke : e.1 = iid
    · have hee : e = (iid, hyp) := by
        rcases List.mem_cons.mp hm with h | h
        · exact h.symm
        · exact absurd (hke ▸ List.mem_map.mpr ⟨(iid, hyp), h, rfl⟩) hnd.1
      have hlk2 : dlookup e.1 mi = some idx := by rw [hke]; exact hlk
      have hnoRest : ∀ q ∈ rest, dlookup q.1 mi ≠ some idx := by
        intro q hq
        have hq1 : q.1 ≠ iid := by
          intro he
          exact hnd.1 (hke ▸ he ▸ List.mem_map.mpr ⟨q, hq, rfl⟩)
        exact hinj q (List.mem_cons_of_mem _ hq) (hke ▸ hq1)
      cases h2 : insts[idx]? with
      | none =>
        rw [enrichAll_cons_oob rest insts hlk2 h2,
            enrichAll_untouched projById mi rest insts idx hnoRest, h2]
        rfl
      | some i =>
        rw [enrichAll_cons_set rest insts hlk2 h2,
            enrichAll_untouched projById mi rest _ idx hnoRest]
        have hlt : idx < insts.length := by
          rcases List.getElem?_eq_some_iff.mp h2 with ⟨hl, _⟩
          exact hl
        rw [List.getElem?_set_self hlt, hee]
        rfl
    · have hm2 : (iid, hyp) ∈ rest := by
        rcases List.mem_cons.mp hm with h | h
        · exact absurd (congrArg Prod.fst h.symm) hke
        · exact h
      have hinjRest : ∀ q ∈ rest, q.1 ≠ iid → dlookup q.1 mi ≠ some idx :=
        fun q hq => hinj q (List.mem_cons_of_mem _ hq)
      cases h1 : dlookup e.1 mi with
      | none =>
        rw [enrichAll_cons_miss rest insts h1]
        exact ih insts iid hyp idx hnd.2 hm2 hlk hinjRest
      | some idx2 =>
        have hne : idx2 ≠ idx := by
          intro he
          exact hinj e (List.mem_cons_self _ _) hke (he ▸ h1)
        cases h2 : insts[idx2]? with
        | none =>
          rw [enrichAll_cons_oob rest insts h1 h2]
          exact ih insts iid hyp idx hnd.2 hm2 hlk hinjRest
        | some i =>
          rw [enrichAll_cons_set rest insts h1 h2,
              ih _ iid hyp idx hnd.2 hm2 hlk hinjRest,
              List.getElem?_set_ne hne]

theorem enrichAll_getElem_cases (projById : List (String × Project))
    (mi : List (String × Nat)) :
    ∀ (entries : List (String × Hypervisor)) (insts : List Inst) (j : Nat),
    (enrichAll projById mi entries insts)[j]? = insts[j]? ∨
      ∃ iid, dlookup iid mi = some j := by
  intro entries
  induction entries with
  | nil => intro insts j; left; rfl
  | cons e rest ih =>
    intro insts j
    cases h1 : dlookup e.1 mi with
    | none =>
      rw [enrichAll_cons_miss rest insts h1]
      exact ih insts j
    | some idx =>
      by_cases hje : idx = j
      · right
        exact ⟨e.1, hje ▸ h1⟩
      · cases h2 : insts[idx]? with
        | none =>
          rw [enrichAll_cons_oob rest insts h1 h2]
          exact ih insts j
        | some i =>
          rw [enrichAll_cons_set rest insts h1 h2]
          rcases ih _ j with hsame | hex
          · left
            rw [hsame, List.getElem?_set_ne hje]
          · right
            exact hex

/-- The fields of an instance record the join loop reads: id, hypervisor
reference and project id.  Enrichment leaves them all unchanged. -/
def projOf (i : Inst) : String × Option String × String :=
  (i.id, i.hypervisor, i.project_id)

theorem enrichRec_projOf (projById : List (String × Project)) (hyp : Hypervisor) (i : Inst) :
    projOf (enrichRec projById hyp i) = projOf i := by
  cases h : dlookup i.project_id projById <;> simp [enrichRec, h, projOf]

theorem enrichRec_idem (projById : List (String × Project)) (hyp : Hypervisor) (i : Inst) :
    enrichRec projById hyp (enrichRec projById hyp i) = enrichRec projById hyp i := by
  cases h : dlookup i.project_id projById with
  | none => simp [enrichRec, h]
  | some p => simp [enrichRec, h]

theorem enrichAll_map_projOf (projById : List (String × Project)) (mi : List (String × Nat)) :
    ∀ (entries : List (String × Hypervisor)) (insts : List Inst),
    (enrichAll projById mi entries insts).map projOf = insts.map projOf := by
  intro entries
  induction entries with
  | nil => intro insts; rfl
  | cons e rest ih =>
    intro insts
    cases h1 : dlookup e.1 mi with
    | none =>
      rw [enrichAll_cons_miss rest insts h1]
      exact ih insts
    | some idx =>
      cases h2 : insts[idx]? with
      | none =>
        rw [enrichAll_cons_oob rest insts h1 h2]
        exact ih insts
      | some i =>
        rw [enrichAll_cons_set rest insts h1 h2, ih _, List.map_set,
            enrichRec_projOf, set_of_getElem?]
        rw [List.getElem?_map, h2]
        rfl

theorem enrichAll_map_id (projById : List (String × Project)) (mi : List (String × Nat))
    (entries : List (String × Hypervisor)) (insts : List Inst) :
    (enrichAll projById mi entries insts).map Inst.id = insts.map Inst.id := by
  have h := congrArg (List.map Prod.fst) (enrichAll_map_projOf projById mi entries insts)
  simpa [List.map_map, Function.comp, projOf] using h

theorem enrichAll_length (projById : List (String × Project)) (mi : List (String × Nat))
    (entries : List (String × Hypervisor)) (insts : List Inst) :
    (enrichAll projById mi entries insts).length = insts.length := by
  have h := congrArg List.length (enrichAll_map_projOf projById mi entries insts)
  simpa using h

/-! ### Output-stream lemmas -/

theorem outputRecords_map_id : ∀ (mi : List (String × Nat)) (fin : List Inst),
    (∀ p ∈ mi, ∃ rec, fin[p.2]? = some rec ∧ rec.id = p.1) →
    (outputRecords mi fin).map Inst.id = mi.map Prod.fst := by
  intro mi
  induction mi with
  | nil => intro fin _; rfl
  | cons p rest ih =>
    intro fin hall
    rcases hall p (List.mem_cons_self _ _) with ⟨rec, h1, h2⟩
    have hrest : ∀ q ∈ rest, ∃ r, fin[q.2]? = some r ∧ r.id = q.1 :=
      fun q hq => hall q (List.mem_cons_of_mem _ hq)
    simp only [outputRecords, List.filterMap_cons, h1]
    simpa [h2] using ih fin hrest

theorem mem_outputRecords {mi : List (String × Nat)} {fin : List Inst} {r : Inst} :
    r ∈ outputRecords mi fin ↔ ∃ p ∈ mi, fin[p.2]? = some r := by
  simp [outputRecords, List.mem_filterMap]

/-! ### Run-level characterization -/

theorem active_instances_err_az {hs : List Hypervisor} {hid : String}
    (is : List Inst) (ps : List Project) (h : azCheck hs = some hid) :
    active_instances hs is ps = Except.error (Fatal.noAZ hid, [LogEvent.errorNoAZ hid]) := by
  simp [active_instances, h]

theorem active_instances_ok_eq (hs : List Hypervisor) (is : List Inst) (ps : List Project)
    (haz : azCheck hs = none)
    (hok : ∀ i ∈ is, hypOk (hypShortMap hs) i = true) :
    active_instances hs is ps =
      Except.ok
        (outputRecords
            (joinAccum (hypShortMap hs) (buildProjectById ps) (enumerate 0 is) ([], [])).2
            (enrichAll (buildProjectById ps)
              (joinAccum (hypShortMap hs) (buildProjectById ps) (enumerate 0 is) ([], [])).2
              (joinAccum (hypShortMap hs) (buildProjectById ps) (enumerate 0 is) ([], [])).1
              is),
         enrichAll (buildProjectById ps)
           (joinAccum (hypShortMap hs) (buildProjectById ps) (enumerate 0 is) ([], [])).2
           (joinAccum (hypShortMap hs) (buildProjectById ps) (enumerate 0 is) ([], [])).1
           is,
         (LogEvent.debugCheckedAZ :: (buildHypShortAux hs [] []).2) ++
           joinWarnings (hypShortMap hs) (buildProjectById ps) (enumerate 0 is) ++
           [LogEvent.debugCheckedInstances]) := by
  have hfst : (buildHypShortAux hs [] [LogEvent.debugCheckedAZ]).1 = hypShortMap hs :=
    buildHypShortAux_fst_log hs [] _ []
  have hsnd : (buildHypShortAux hs [] [LogEvent.debugCheckedAZ]).2 =
      LogEvent.debugCheckedAZ :: (buildHypShortAux hs [] []).2 := by
    rw [buildHypShortAux_log_split hs [] [LogEvent.debugCheckedAZ]]
    rfl
  have hok2 : ∀ p ∈ enumerate 0 is,
      hypOk (buildHypShortAux hs [] [LogEvent.debugCheckedAZ]).1 p.2 = true := by
    intro p hp
    rw [hfst]
    exact hok p.2 (enumerate_snd_mem 0 hp)
  simp only [active_instances, haz]
  rw [joinLoop_ok _ _ _ _ _ _ hok2, hfst, hsnd]

theorem joinLoop_ok_hypOk (hypShort : List (String × Hypervisor))
    (projById : List (String × Project)) :
    ∀ (l : List (Nat × Inst)) (mh : List (String × Hypervisor)) (mi : List (String × Nat))
    (log : List LogEvent)
    (res : List (String × Hypervisor) × List (String × Nat) × List LogEvent),
    joinLoop hypShort projById l mh mi log = Except.ok res →
    ∀ p ∈ l, hypOk hypShort p.2 = true := by
  intro l
  induction l with
  | nil => intro mh mi log res _ p hp; cases hp
  | cons p rest ih =>
    intro mh mi log res hok q hq
    cases hi : p.2.hypervisor with
    | none =>
      rw [joinLoop_cons_noHyp rest mh mi log hi] at hok
      rcases List.mem_cons.mp hq with rfl | hq2
      · simp [hypOk, hi]
      · exact ih _ _ _ _ hok q hq2
    | some ref =>
      cases hd : dlookup (shortName ref) hypShort with
      | none =>
        rw [joinLoop_cons_fatal rest mh mi log hi hd] at hok
        cases hok
      | some hyp =>
        cases hp : dlookup p.2.project_id projById with
        | none =>
          rw [joinLoop_cons_badProj rest mh mi log hi hd hp] at hok
          rcases List.mem_cons.mp hq with rfl | hq2
          · simp [hypOk, hi, hd]
          · exact ih _ _ _ _ hok q hq2
        | some pr =>
          rw [joinLoop_cons_keep rest mh mi log hi hd hp] at hok
          rcases List.mem_cons.mp hq with rfl | hq2
          · simp [hypOk, hi, hd]
          · exact ih _ _ _ _ hok q hq2

theorem active_instances_none_az {hs : List Hypervisor} (is : List Inst) (ps : List Project)
    (haz : azCheck hs = none) :
    active_instances hs is ps =
      (match joinLoop (buildHypShortAux hs [] [LogEvent.debugCheckedAZ]).1
          (buildProjectById ps) (enumerate 0 is) [] []
          (buildHypShortAux hs [] [LogEvent.debugCheckedAZ]).2 with
       | Except.error e => Except.error e
       | Except.ok (mh, mi, log2) =>
         Except.ok (outputRecords mi (enrichAll (buildProjectById ps) mi mh is),
           enrichAll (buildProjectById ps) mi mh is,
           log2 ++ [LogEvent.debugCheckedInstances])) := by
  simp [active_instances, haz]

/-- Destructuring a successful run: the availability-zone check passed,
every instance's non-null hypervisor reference resolved, and the three
returned components are exactly the join-accumulator characterization. -/
theorem active_instances_ok_inv (hs : List Hypervisor) (is : List Inst) (ps : List Project)
    (out fin : List Inst) (log : List LogEvent)
    (hrun : active_instances hs is ps = Except.ok (out, fin, log)) :
    azCheck hs = none ∧
    (∀ i ∈ is, hypOk (hypShortMap hs) i = true) ∧
    fin = enrichAll (buildProjectById ps)
        (joinAccum (hypShortMap hs) (buildProjectById ps) (enumerate 0 is) ([], [])).2
        (joinAccum (hypShortMap hs) (buildProjectById ps) (enumerate 0 is) ([], [])).1 is ∧
    out = outputRecords
        (joinAccum (hypShortMap hs) (buildProjectById ps) (enumerate 0 is) ([], [])).2 fin ∧
    log = (LogEvent.debugCheckedAZ :: (buildHypShortAux hs [] []).2) ++
        joinWarnings (hypShortMap hs) (buildProjectById ps) (enumerate 0 is) ++
        [LogEvent.debugCheckedInstances] := by
  cases haz : azCheck hs with
  | some hid =>
    rw [active_instances_err_az is ps haz] at hrun
    cases hrun
  | none =>
    have hok : ∀ i ∈ is, hypOk (hypShortMap hs) i = true := by
      rw [active_instances_none_az is ps haz] at hrun
      cases hjl : joinLoop (buildHypShortAux hs [] [LogEvent.debugCheckedAZ]).1
          (buildProjectById ps) (enumerate 0 is) [] []
          (buildHypShortAux hs [] [LogEvent.debugCheckedAZ]).2 with
      | error e =>
        rw [hjl] at hrun
        cases hrun
      | ok res =>
        intro i hi
        rcases mem_enumerate_of_mem 0 hi with ⟨idx, hidx⟩
        have := joinLoop_ok_hypOk _ _ _ _ _ _ _ hjl (idx, i) hidx
        rwa [buildHypShortAux_fst_log hs [] [LogEvent.debugCheckedAZ] []] at this
    rw [active_instances_ok_eq hs is ps haz hok] at hrun
    simp only [Except.ok.injEq, Prod.mk.injEq] at hrun
    rcases hrun with ⟨hout, hfin, hlog⟩
    refine ⟨rfl, hok, hfin.symm, ?_, hlog.symm⟩
    rw [← hout, hfin]

/-- The join-accumulator dicts of a run, from the empty accumulators. -/
def runAccum (hs : List Hypervisor) (is : List Inst) (ps : List Project) :
    List (String × Hypervisor) × List (String × Nat) :=
  joinAccum (hypShortMap hs) (buildProjectById ps) (enumerate 0 is) ([], [])

theorem runAccum_inv (hs : List Hypervisor) (is : List Inst) (ps : List Project) :
    JoinInv (hypShortMap hs) (buildProjectById ps) is
      (runAccum hs is ps).1 (runAccum hs is ps).2 := by
  apply joinAccum_inv
  · intro p hp
    have := (enumerate_mem_getElem 0 hp).2
    simpa using this
  · intro iid idx h
    simp [dlookup] at h

theorem runAccum_nodup (hs : List Hypervisor) (is : List Inst) (ps : List Project) :
    ((runAccum hs is ps).1.map Prod.fst).Nodup ∧
      ((runAccum hs is ps).2.map Prod.fst).Nodup := by
  apply joinAccum_keys_nodup
  · simp
  · simp

theorem runAccum_sync (hs : List Hypervisor) (is : List Inst) (ps : List Project) :
    ∀ iid, (dlookup iid (runAccum hs is ps).1).isSome =
      (dlookup iid (runAccum hs is ps).2).isSome := by
  apply joinAccum_keys_sync
  intro iid
  simp [dlookup]

/-- Two keys of `instance_by_id` pointing at the same position carry the
same id, because the record stored there has both as its id. -/
theorem runAccum_mi_inj (hs : List Hypervisor) (is : List Inst) (ps : List Project)
    {iid1 iid2 : String} {j : Nat}
    (h1 : dlookup iid1 (runAccum hs is ps).2 = some j)
    (h2 : dlookup iid2 (runAccum hs is ps).2 = some j) : iid1 = iid2 := by
  rcases runAccum_inv hs is ps iid1 j h1 with ⟨rec1, hyp1, hg1, hid1, _⟩
  rcases runAccum_inv hs is ps iid2 j h2 with ⟨rec2, hyp2, hg2, hid2, _⟩
  rw [hg1] at hg2
  cases hg2
  rw [← hid1, ← hid2]

/-- Every output-record id belongs to a record of the fetched set that
survived the join. -/
theorem run_output_id_surv (hs : List Hypervisor) (is : List Inst) (ps : List Project)
    (x : String) :
    ∀ r ∈ outputRecords (runAccum hs is ps).2
        (enrichAll (buildProjectById ps) (runAccum hs is ps).2 (runAccum hs is ps).1 is),
      r.id = x →
      ∃ q, q ∈ is ∧ q.id = x ∧ survB (hypShortMap hs) (buildProjectById ps) q = true := by
  intro r hr hrx
  rcases mem_outputRecords.mp hr with ⟨p, hp, hp2⟩
  have hlk : dlookup p.1 (runAccum hs is ps).2 = some p.2 :=
    dlookup_of_mem_nodup (runAccum_nodup hs is ps).2 ((Prod.mk.eta (p := p)) ▸ hp)
  rcases runAccum_inv hs is ps p.1 p.2 hlk with ⟨rec, hyp, hg, hid, _, _, _⟩
  have hids := enrichAll_map_id (buildProjectById ps) (runAccum hs is ps).2
    (runAccum hs is ps).1 is
  have hrid : r.id = rec.id := by
    have h1 := congrArg (fun l => l[p.2]?) hids
    simp only [List.getElem?_map] at h1
    rw [hp2, hg] at h1
    simpa using h1
  have hkey : p.1 = x := by rw [← hrx, hrid, hid]
  have hsome : (dlookup x (runAccum hs is ps).2).isSome = true := by
    rw [← hkey, hlk]
    rfl
  rcases joinAccum_keys_origin (hypShortMap hs) (buildProjectById ps)
      (enumerate 0 is) ([], []) x hsome with h1 | ⟨q, hq, hq2, hq3⟩
  · simp [dlookup] at h1
  · exact ⟨q.2, enumerate_snd_mem 0 hq, hq2, hq3⟩

theorem enumerate_filter_length (f : Inst → Bool) : ∀ (l : List Inst) (n : Nat),
    ((enumerate n l).filter (fun p => f p.2)).length = (l.filter f).length := by
  intro l
  induction l with
  | nil => intro n; rfl
  | cons i rest ih =>
    intro n
    cases hf : f i with
    | true => simp [enumerate, List.filter_cons, hf, ih (n + 1)]
    | false => simp [enumerate, List.filter_cons, hf, ih (n + 1)]

theorem filter_conj_id_unique (i : Inst) (f : Inst → Bool) :
    ∀ (is : List Inst), (is.map Inst.id).Nodup → i ∈ is → f i = true →
    (is.filter (fun q => f q && q.id == i.id)).length = 1 := by
  intro is
  induction is with
  | nil => intro _ hi; cases hi
  | cons x rest ih =>
    intro hnd hi hf
    simp only [List.map_cons, List.nodup_cons] at hnd
    by_cases hxi : x.id = i.id
    · have hix : i = x := by
        rcases List.mem_cons.mp hi with rfl | h2
        · rfl
        · exact absurd (hxi ▸ List.mem_map.mpr ⟨i, h2, rfl⟩) hnd.1
      have htail : rest.filter (fun q => f q && q.id == i.id) = [] := by
        rw [List.filter_eq_nil_iff]
        intro q hq
        have : q.id ≠ i.id := by
          intro he
          exact hnd.1 (hxi ▸ he ▸ List.mem_map.mpr ⟨q, hq, rfl⟩)
        simp [this]
      rw [List.filter_cons]
      have hcond : (f x && x.id == i.id) = true := by
        rw [← hix] at hxi ⊢
        simp [hf, hxi]
      rw [hcond]
      simp [htail]
    · have hi2 : i ∈ rest := by
        rcases List.mem_cons.mp hi with rfl | h2
        · exact absurd rfl hxi
        · exact h2
      rw [List.filter_cons]
      have hcond : (f x && x.id == i.id) = false := by
        simp [hxi]
      rw [hcond]
      simpa using ih hnd.2 hi2 hf

theorem dup_events_count (hs : List Hypervisor) (e : LogEvent)
    (hne : ∀ s a b, e ≠ LogEvent.warnDupShortName s a b) :
    ((buildHypShortAux hs [] []).2).count e = 0 := by
  rw [List.count_eq_zero]
  intro hmem
  rcases buildHypShortAux_log_events hs [] [] e hmem with h | ⟨s, a, b, h⟩
  · cases h
  · exact hne s a b h

theorem recWarnings_count_noHyp (hypShort : List (String × Hypervisor))
    (projById : List (String × Project)) (x : String) (i : Inst) :
    (recWarnings hypShort projById i).count (LogEvent.warnNoHypervisor x) =
      if (i.hypervisor == none) && i.id == x then 1 else 0 := by
  cases hi : i.hypervisor with
  | none =>
    by_cases hx : i.id = x
    · simp [recWarnings, hi, hx, List.count_singleton]
    · simp [recWarnings, hi, hx, List.count_singleton]
  | some ref =>
    cases hd : dlookup (shortName ref) hypShort with
    | none => simp [recWarnings, hi, hd]
    | some hyp =>
      cases hp : (dlookup i.project_id projById).isSome with
      | true => simp [recWarnings, hi, hd, hp]
      | false => simp [recWarnings, hi, hd, hp, List.count_singleton]

theorem joinWarnings_count_noHyp (hypShort : List (String × Hypervisor))
    (projById : List (String × Project)) (x : String) :
    ∀ l : List (Nat × Inst),
    (joinWarnings hypShort projById l).count (LogEvent.warnNoHypervisor x) =
      (l.filter (fun p => (p.2.hypervisor == none) && p.2.id == x)).length := by
  intro l
  induction l with
  | nil => rfl
  | cons p rest ih =>
    rw [joinWarnings, List.count_append, ih, List.filter_cons,
        recWarnings_count_noHyp hypShort projById x p.2]
    cases hc : ((p.2.hypervisor == none) && p.2.id == x) with
    | true =>
      simp only [hc, if_true, List.length_cons]
      omega
    | false =>
      simp [hc]

theorem recWarnings_count_badProj (hypShort : List (String × Hypervisor))
    (projById : List (String × Project)) (x pid : String) (i : Inst) :
    (recWarnings hypShort projById i).count (LogEvent.warnBadProject x pid) =
      if ((resolvedHyp hypShort i).isSome &&
          !(dlookup i.project_id projById).isSome && i.project_id == pid) &&
        i.id == x then 1 else 0 := by
  cases hi : i.hypervisor with
  | none => simp [recWarnings, resolvedHyp, hi, List.count_singleton]
  | some ref =>
    cases hd : dlookup (shortName ref) hypShort with
    | none => simp [recWarnings, resolvedHyp, hi, hd]
    | some hyp =>
      cases hp : (dlookup i.project_id projById).isSome with
      | true => simp [recWarnings, resolvedHyp, hi, hd, hp]
      | false =>
        have hrw : recWarnings hypShort projById i =
            [LogEvent.warnBadProject i.id i.project_id] := by
          simp [recWarnings, hi, hd, hp]
        have hA : (resolvedHyp hypShort i).isSome = true := by
          simp [resolvedHyp, hi, hd]
        rw [hrw]
        by_cases hx : i.id = x
        · by_cases hpd : i.project_id = pid
          · simp [hA, hx, hpd, List.count_singleton]
          · simp [hA, hx, hpd, List.count_singleton]
        · by_cases hpd : i.project_id = pid
          · simp [hA, hx, hpd, List.count_singleton]
          · simp [hA, hx, hpd, List.count_singleton]

theorem joinWarnings_count_badProj (hypShort : List (String × Hypervisor))
    (projById : List (String × Project)) (x pid : String) :
    ∀ l : List (Nat × Inst),
    (joinWarnings hypShort projById l).count (LogEvent.warnBadProject x pid) =
      (l.filter (fun p =>
        ((resolvedHyp hypShort p.2).isSome &&
          !(dlookup p.2.project_id projById).isSome && p.2.project_id == pid) &&
        p.2.id == x)).length := by
  intro l
  induction l with
  | nil => rfl
  | cons p rest ih =>
    rw [joinWarnings, List.count_append, ih, List.filter_cons,
        recWarnings_count_badProj hypShort projById x pid p.2]
    cases hc : (((resolvedHyp hypShort p.2).isSome &&
        !(dlookup p.2.project_id projById).isSome && p.2.project_id == pid) &&
      p.2.id == x) with
    | true =>
      simp only [hc, if_true, List.length_cons]
      omega
    | false =>
      simp [hc]

/-! ### Concrete fixtures (the spec's own scenarios) -/

/-- Scenario hypervisor H1: short name "a", last_seen 100. -/
def exH1 : Hypervisor := ⟨"H1", "a.example.com", some "az1", 100⟩

/-- Scenario hypervisor H2: short name "a", last_seen 200. -/
def exH2 : Hypervisor := ⟨"H2", "a.example.com", some "az2", 200⟩

/-- Variant of H2 whose last_seen ties with H1's. -/
def exH2tie : Hypervisor := ⟨"H2", "a.example.com", some "az2", 100⟩

/-- Scenario hypervisor H3 with an empty availability zone. -/
def exH3 : Hypervisor := ⟨"H3", "b.example.com", some "", 50⟩

/-- Scenario project P1. -/
def exP1 : Project := ⟨"P1", "Team Alpha"⟩

/-- Scenario instance I4, fully resolvable, with a stale location tag. -/
def exI4 : Inst := ⟨"I4", some "a.example.com", "P1", some "stale-az", none⟩

/-- Scenario instance I1 with a null hypervisor reference. -/
def exI1 : Inst := ⟨"I1", none, "P1", none, none⟩

/-- Scenario instance I2 with an unknown project id. -/
def exI2 : Inst := ⟨"I2", some "a.example.com", "UNKNOWN", none, none⟩

/-- Scenario instance I3 referencing a hypervisor with no known short name. -/
def exI3 : Inst := ⟨"I3", some "unknown.example.com", "P1", none, none⟩

/-- The record the concrete run turns exI4 into, in place. -/
def exI4enr : Inst := ⟨"I4", some "a.example.com", "P1", some "az2", some "Team Alpha"⟩

/-! ### Claim C1 -/

/-- Claim C1 (counterexample): two hypervisors share short name "a" and
have equal last_seen timestamps; the resolver maps "a" to the hypervisor
encountered second, not to the first encountered as the claim states. -/
theorem c1_counterexample :
    shortName exH1.hostname = shortName exH2tie.hostname ∧
    exH1.last_seen = exH2tie.last_seen ∧
    dlookup (shortName exH1.hostname) (hypShortMap [exH1, exH2tie]) = some exH2tie ∧
    exH2tie ≠ exH1 := by
  refine ⟨rfl, rfl, ?_, by decide⟩
  rfl

/-- Claim C1 (amended): for a pair of hypervisors sharing a short name the
resolver retains exactly the one with the greater-or-equal last_seen
timestamp, and when the two timestamps are equal it keeps the hypervisor
encountered last in input order (the newcomer replaces the stored one on
a tie). -/
theorem c1_resolver_pair (hs : List Hypervisor) (s : String) (a b : Hypervisor)
    (hf : hs.filter (fun h => shortName h.hostname = s) = [a, b]) :
    dlookup s (hypShortMap hs) = some (if b.last_seen < a.last_seen then a else b) := by
  rw [hypShortMap, buildHypShortAux_dlookup s hs [] [], hf]
  simp [dlookup, collideFold, collideStep]

/-- Claim C1 (amended, witness): instantiated on the spec's scenario-1
pair, where H2's timestamp is strictly greater, so H2 wins the slot. -/
theorem c1_resolver_pair_witness :
    ([exH1, exH2].filter (fun h => shortName h.hostname = "a") = [exH1, exH2]) ∧
    dlookup "a" (hypShortMap [exH1, exH2]) =
      some (if exH2.last_seen < exH1.last_seen then exH1 else exH2) :=
  ⟨by decide, c1_resolver_pair [exH1, exH2] "a" exH1 exH2 (by decide)⟩

/-! ### Claim C3 -/

/-- Claim C3: if any hypervisor record in the fetched set has a missing or
empty availability_zone, the run signals the fatal no-AZ condition naming
a violating hypervisor's identifier and aborts with no output, whatever
the instance and project sets are — the check precedes short-name
resolution and instance processing, so nothing else is even consulted. -/
theorem c3_az_fatal (hs : List Hypervisor) (h : Hypervisor)
    (hm : h ∈ hs) (hf : azFalsy h.availability_zone = true) :
    ∃ h', h' ∈ hs ∧ azFalsy h'.availability_zone = true ∧
      ∀ (is : List Inst) (ps : List Project),
        active_instances hs is ps =
          Except.error (Fatal.noAZ h'.id, [LogEvent.errorNoAZ h'.id]) := by
  rcases azCheck_isSome_of_mem hm hf with ⟨hid, hc⟩
  rcases azCheck_eq_some hc with ⟨h', hm', hf', hi'⟩
  refine ⟨h', hm', hf', fun is ps => ?_⟩
  rw [active_instances_err_az is ps hc, hi']

/-- Claim C3 (witness): scenario 2, a hypervisor with an empty
availability zone anywhere in the set aborts every run fatally. -/
theorem c3_az_fatal_witness :
    ∃ h', h' ∈ [exH1, exH3] ∧ azFalsy h'.availability_zone = true ∧
      ∀ (is : List Inst) (ps : List Project),
        active_instances [exH1, exH3] is ps =
          Except.error (Fatal.noAZ h'.id, [LogEvent.errorNoAZ h'.id]) :=
  c3_az_fatal [exH1, exH3] exH3 (by decide) (by decide)

/-! ### Claim C2 -/

/-- Claim C2 (counterexample): a concrete successful run returns a
post-run fetched instance list that differs from the fetched input —
the surviving record's availability_zone was overwritten and a
project_display_name field attached in place, so the raw snapshot is
mutated, not preserved, and the output record is the mutated original,
not a copy. -/
theorem c2_counterexample :
    active_instances [exH1, exH2] [exI4] [exP1] =
      Except.ok ([exI4enr], [exI4enr],
        [LogEvent.debugCheckedAZ, LogEvent.warnDupShortName "a" "H1" "H2",
         LogEvent.debugCheckedInstances]) ∧
    exI4enr ≠ exI4 ∧
    exI4enr.availability_zone ≠ exI4.availability_zone ∧
    exI4.project_display_name = none ∧ exI4enr.project_display_name ≠ none := by
  refine ⟨rfl, by decide, by decide, rfl, by decide⟩

/-- Claim C2 (amended): enrichment mutates the surviving fetched records
in place rather than copies: on a successful run the post-run fetched
list keeps its length, every output record is a member of the post-run
fetched list, and each position of the post-run fetched list either still
holds the record exactly as fetched or holds one of the output records
(the in-place enrichment of the record fetched at that position). -/
theorem c2_inplace_mutation (hs : List Hypervisor) (is : List Inst) (ps : List Project)
    (out fin : List Inst) (log : List LogEvent)
    (hrun : active_instances hs is ps = Except.ok (out, fin, log)) :
    fin.length = is.length ∧
    (∀ r ∈ out, r ∈ fin) ∧
    (∀ j : Nat, fin[j]? = is[j]? ∨ ∃ r ∈ out, fin[j]? = some r) := by
  rcases active_instances_ok_inv hs is ps out fin log hrun with ⟨haz, hok, hfin, hout, hlog⟩
  have hlen : fin.length = is.length := by
    rw [hfin]
    exact enrichAll_length _ _ _ _
  refine ⟨hlen, ?_, ?_⟩
  · intro r hr
    rw [hout] at hr
    rcases mem_outputRecords.mp hr with ⟨p, _, hp2⟩
    exact List.mem_iff_getElem?.mpr ⟨p.2, hp2⟩
  · intro j
    rcases enrichAll_getElem_cases (buildProjectById ps)
        (joinAccum (hypShortMap hs) (buildProjectById ps) (enumerate 0 is) ([], [])).2
        (joinAccum (hypShortMap hs) (buildProjectById ps) (enumerate 0 is) ([], [])).1
        is j with hsame | ⟨iid, hiid⟩
    · left
      rw [hfin]
      exact hsame
    · right
      rcases runAccum_inv hs is ps iid j hiid with ⟨rec, hyp, hg, _, _, _, _⟩
      have hjlt : j < fin.length := by
        rw [hlen]
        rcases List.getElem?_eq_some_iff.mp hg with ⟨hl, _⟩
        exact hl
      cases hfj : fin[j]? with
      | none =>
        rw [List.getElem?_eq_none_iff] at hfj
        omega
      | some r2 =>
        exact ⟨r2, by
          rw [hout]
          exact mem_outputRecords.mpr ⟨(iid, j), dlookup_mem hiid, hfj⟩, rfl⟩

/-- Claim C2 (amended, witness): the in-place-mutation theorem applied to
the concrete scenario-6 run. -/
theorem c2_inplace_mutation_witness :
    ([exI4enr] : List Inst).length = [exI4].length ∧
    (∀ r ∈ [exI4enr], r ∈ [exI4enr]) ∧
    (∀ j : Nat, ([exI4enr] : List Inst)[j]? = [exI4][j]? ∨
      ∃ r ∈ [exI4enr], ([exI4enr] : List Inst)[j]? = some r) :=
  c2_inplace_mutation [exH1, exH2] [exI4] [exP1] [exI4enr] [exI4enr]
    [LogEvent.debugCheckedAZ, LogEvent.warnDupShortName "a" "H1" "H2",
     LogEvent.debugCheckedInstances] rfl

/-! ### Claim C4 -/

/-- Claim C4: when the hypervisor set passes the availability-zone check
and some instance's hypervisor reference is non-null but its short name is
absent from the short-name map, the whole run aborts fatally with the
unknown-hypervisor condition (no output at all), reporting the identifier
of such an instance — whatever its project id is, since the hypervisor
check precedes the project check. -/
theorem c4_unknown_hyp_fatal (hs : List Hypervisor) (is : List Inst) (ps : List Project)
    (i : Inst) (ref : String)
    (haz : ∀ h ∈ hs, azFalsy h.availability_zone = false)
    (hi : i ∈ is) (href : i.hypervisor = some ref)
    (hun : dlookup (shortName ref) (hypShortMap hs) = none) :
    ∃ i2 ref2 log, i2 ∈ is ∧ i2.hypervisor = some ref2 ∧
      dlookup (shortName ref2) (hypShortMap hs) = none ∧
      active_instances hs is ps =
        Except.error (Fatal.unknownHypervisor i2.id, log) := by
  have haz2 : azCheck hs = none := azCheck_eq_none.mpr haz
  have hex : ∃ p ∈ enumerate 0 is, hypOk (hypShortMap hs) p.2 = false := by
    rcases mem_enumerate_of_mem 0 hi with ⟨idx, hidx⟩
    refine ⟨(idx, i), hidx, ?_⟩
    simp [hypOk, href, hun]
  rcases joinLoop_err (hypShortMap hs) (buildProjectById ps) (enumerate 0 is) [] []
      (buildHypShortAux hs [] [LogEvent.debugCheckedAZ]).2 hex with ⟨q, log2, hq, hfq, heq⟩
  rcases hypOk_false_iff.mp hfq with ⟨ref2, href2, hun2⟩
  refine ⟨q.2, ref2, log2, enumerate_snd_mem 0 hq, href2, hun2, ?_⟩
  have hfst : (buildHypShortAux hs [] [LogEvent.debugCheckedAZ]).1 = hypShortMap hs :=
    buildHypShortAux_fst_log hs [] _ []
  rw [active_instances_none_az is ps haz2, hfst, heq]

/-- Concrete fixture for C4: scenario-5 instance whose hypervisor
reference has no known short name and whose project id is also unknown. -/
def exI3b : Inst := ⟨"I3", some "unknown.example.com", "UNKNOWN", none, none⟩

/-- Claim C4 (witness): the fatal-abort theorem instantiated on a run
whose single instance has an unresolvable hypervisor reference and an
invalid project id. -/
theorem c4_unknown_hyp_fatal_witness :
    ∃ i2 ref2 log, i2 ∈ [exI3b] ∧ i2.hypervisor = some ref2 ∧
      dlookup (shortName ref2) (hypShortMap [exH1, exH2]) = none ∧
      active_instances [exH1, exH2] [exI3b] [exP1] =
        Except.error (Fatal.unknownHypervisor i2.id, log) :=
  c4_unknown_hyp_fatal [exH1, exH2] [exI3b] [exP1] exI3b "unknown.example.com"
    (by decide) (by decide) rfl (by decide)

/-! ### Claim C5 -/

/-- Claim C5: under validated hypervisors, resolvable references and
unique instance ids, an instance with a null hypervisor reference does
not abort the run: the run completes, the instance is absent from the
output, and exactly one warning naming its identifier is logged. -/
theorem c5_null_hyp_dropped (hs : List Hypervisor) (is : List Inst) (ps : List Project)
    (i : Inst)
    (haz : ∀ h ∈ hs, azFalsy h.availability_zone = false)
    (hres : ∀ q ∈ is, hypOk (hypShortMap hs) q = true)
    (hnd : (is.map Inst.id).Nodup)
    (hi : i ∈ is) (hnull : i.hypervisor = none) :
    ∃ out fin log, active_instances hs is ps = Except.ok (out, fin, log) ∧
      (∀ r ∈ out, r.id ≠ i.id) ∧
      log.count (LogEvent.warnNoHypervisor i.id) = 1 := by
  have haz2 : azCheck hs = none := azCheck_eq_none.mpr haz
  refine ⟨_, _, _, active_instances_ok_eq hs is ps haz2 hres, ?_, ?_⟩
  · intro r hr hrx
    rcases run_output_id_surv hs is ps i.id r hr hrx with ⟨q, hq, hqid, hqs⟩
    have hqi : q = i := List.inj_on_of_nodup_map hnd hq hi hqid
    rw [hqi] at hqs
    simp [survB, resolvedHyp, hnull] at hqs
  · have hcount1 := joinWarnings_count_noHyp (hypShortMap hs) (buildProjectById ps)
      i.id (enumerate 0 is)
    have hcount2 := enumerate_filter_length
      (fun q => (q.hypervisor == none) && q.id == i.id) is 0
    have hcount3 : (is.filter (fun q => (q.hypervisor == none) && q.id == i.id)).length
        = 1 := filter_conj_id_unique i (fun q => q.hypervisor == none) is hnd hi
      (by simp [hnull])
    have hdup : ((LogEvent.debugCheckedAZ :: (buildHypShortAux hs [] []).2).count
        (LogEvent.warnNoHypervisor i.id)) = 0 := by
      rw [List.count_cons, dup_events_count hs _ (fun s a b => by simp)]
      simp
    rw [List.count_append, List.count_append, hdup, hcount1, hcount2, hcount3]
    simp

/-- Claim C5 (witness): a run with one null-reference instance and one
healthy instance completes, omits the former, and warns once about it. -/
theorem c5_null_hyp_dropped_witness :
    ∃ out fin log, active_instances [exH1, exH2] [exI1, exI4] [exP1] =
        Except.ok (out, fin, log) ∧
      (∀ r ∈ out, r.id ≠ exI1.id) ∧
      log.count (LogEvent.warnNoHypervisor exI1.id) = 1 :=
  c5_null_hyp_dropped [exH1, exH2] [exI1, exI4] [exP1] exI1
    (by decide) (by decide) (by decide) (by decide) rfl

/-! ### Claim C6 -/

/-- Claim C6: under the same conditions, an instance whose hypervisor
reference resolves but whose project id is not a key of the project
mapping is dropped without aborting the run: the run completes, the
instance is absent from the output, and exactly one warning naming the
instance and its bad project id is logged. -/
theorem c6_bad_project_dropped (hs : List Hypervisor) (is : List Inst) (ps : List Project)
    (i : Inst) (ref : String) (hyp : Hypervisor)
    (haz : ∀ h ∈ hs, azFalsy h.availability_zone = false)
    (hres : ∀ q ∈ is, hypOk (hypShortMap hs) q = true)
    (hnd : (is.map Inst.id).Nodup)
    (hi : i ∈ is) (href : i.hypervisor = some ref)
    (hhyp : dlookup (shortName ref) (hypShortMap hs) = some hyp)
    (hbad : dlookup i.project_id (buildProjectById ps) = none) :
    ∃ out fin log, active_instances hs is ps = Except.ok (out, fin, log) ∧
      (∀ r ∈ out, r.id ≠ i.id) ∧
      log.count (LogEvent.warnBadProject i.id i.project_id) = 1 := by
  have haz2 : azCheck hs = none := azCheck_eq_none.mpr haz
  refine ⟨_, _, _, active_instances_ok_eq hs is ps haz2 hres, ?_, ?_⟩
  · intro r hr hrx
    rcases run_output_id_surv hs is ps i.id r hr hrx with ⟨q, hq, hqid, hqs⟩
    have hqi : q = i := List.inj_on_of_nodup_map hnd hq hi hqid
    rw [hqi] at hqs
    simp [survB, hbad] at hqs
  · have hcount1 := joinWarnings_count_badProj (hypShortMap hs) (buildProjectById ps)
      i.id i.project_id (enumerate 0 is)
    have hcount2 := enumerate_filter_length
      (fun q => ((resolvedHyp (hypShortMap hs) q).isSome &&
        !(dlookup q.project_id (buildProjectById ps)).isSome &&
        q.project_id == i.project_id) && q.id == i.id) is 0
    have hcount3 : (is.filter (fun q => ((resolvedHyp (hypShortMap hs) q).isSome &&
        !(dlookup q.project_id (buildProjectById ps)).isSome &&
        q.project_id == i.project_id) && q.id == i.id)).length = 1 :=
      filter_conj_id_unique i
      (fun q => (resolvedHyp (hypShortMap hs) q).isSome &&
        !(dlookup q.project_id (buildProjectById ps)).isSome &&
        q.project_id == i.project_id) is hnd hi
      (by simp [resolvedHyp, href, hhyp, hbad])
    have hdup : ((LogEvent.debugCheckedAZ :: (buildHypShortAux hs [] []).2).count
        (LogEvent.warnBadProject i.id i.project_id)) = 0 := by
      rw [List.count_cons, dup_events_count hs _ (fun s a b => by simp)]
      simp
    rw [List.count_append, List.count_append, hdup, hcount1, hcount2, hcount3]
    simp

/-- Claim C6 (witness): scenario 4 — an instance with project id
"UNKNOWN" is dropped with one warning while the run completes. -/
theorem c6_bad_project_dropped_witness :
    ∃ out fin log, active_instances [exH1, exH2] [exI2, exI4] [exP1] =
        Except.ok (out, fin, log) ∧
      (∀ r ∈ out, r.id ≠ exI2.id) ∧
      log.count (LogEvent.warnBadProject exI2.id exI2.project_id) = 1 :=
  c6_bad_project_dropped [exH1, exH2] [exI2, exI4] [exP1] exI2 "a.example.com" exH2
    (by decide) (by decide) (by decide) (by decide) rfl (by decide) (by decide)

/-- Shared characterization of the output records of a successful run:
each one is the in-place enrichment of a fetched record that survived the
join, through the hypervisor its reference resolved to (a member of the
fetched hypervisor set) and its project mapping entry. -/
theorem run_output_enriched (hs : List Hypervisor) (is : List Inst) (ps : List Project)
    (out fin : List Inst) (log : List LogEvent)
    (hrun : active_instances hs is ps = Except.ok (out, fin, log)) :
    ∀ r ∈ out, ∃ rec hyp pr,
      rec ∈ is ∧ rec.id = r.id ∧
      resolvedHyp (hypShortMap hs) rec = some hyp ∧ hyp ∈ hs ∧
      dlookup rec.project_id (buildProjectById ps) = some pr ∧
      r = enrichRec (buildProjectById ps) hyp rec := by
  rcases active_instances_ok_inv hs is ps out fin log hrun with ⟨haz, hok, hfin, hout, hlog⟩
  have hru : runAccum hs is ps =
      joinAccum (hypShortMap hs) (buildProjectById ps) (enumerate 0 is) ([], []) := rfl
  rw [← hru] at hfin hout
  intro r hr
  rw [hout] at hr
  rcases mem_outputRecords.mp hr with ⟨p, hp, hp2⟩
  have hlk : dlookup p.1 (runAccum hs is ps).2 = some p.2 :=
    dlookup_of_mem_nodup (runAccum_nodup hs is ps).2 ((Prod.mk.eta (p := p)) ▸ hp)
  rcases runAccum_inv hs is ps p.1 p.2 hlk with ⟨rec, hyp, hg, hid, hrh, hmh, hpj⟩
  rcases Option.isSome_iff_exists.mp hpj with ⟨pr, hpr⟩
  have hinj : ∀ e ∈ (runAccum hs is ps).1, e.1 ≠ p.1 →
      dlookup e.1 (runAccum hs is ps).2 ≠ some p.2 := by
    intro e he hne hcontra
    exact hne (runAccum_mi_inj hs is ps hcontra hlk)
  have htouch := enrichAll_touched (buildProjectById ps) (runAccum hs is ps).2
    (runAccum hs is ps).1 is p.1 hyp p.2 (runAccum_nodup hs is ps).1
    (dlookup_mem hmh) hlk hinj
  have hfg : fin[p.2]? = some (enrichRec (buildProjectById ps) hyp rec) := by
    rw [hfin]
    rw [htouch, hg]
    rfl
  have hre : r = enrichRec (buildProjectById ps) hyp rec := by
    rw [hp2] at hfg
    exact (Option.some.injEq _ _ ▸ hfg : r = _)
  have hhs : hyp ∈ hs := by
    cases hrefc : rec.hypervisor with
    | none => rw [resolvedHyp, hrefc] at hrh; cases hrh
    | some ref =>
      rw [resolvedHyp, hrefc] at hrh
      rcases buildHypShortAux_mem_src hs [] [] (shortName ref, hyp) (dlookup_mem hrh)
        with h | h
      · cases h
      · exact h
  have hrid : rec.id = r.id := by
    rw [hre]
    cases hpc : dlookup rec.project_id (buildProjectById ps) <;> simp [enrichRec, hpc]
  exact ⟨rec, hyp, pr, List.mem_iff_getElem?.mpr ⟨p.2, hg⟩, hrid, hrh, hhs, hpr, hre⟩

/-! ### Claim C7 -/

/-- Claim C7: every output record's availability_zone equals the
availability_zone of the hypervisor its originating fetched record
resolved to (never the record's originally reported value, which is
overwritten), and its project_display_name equals the display_name of the
project its project_id resolves to; the id, hypervisor reference and
project id are carried over from the originating record. -/
theorem c7_enrichment_fields (hs : List Hypervisor) (is : List Inst) (ps : List Project)
    (out fin : List Inst) (log : List LogEvent)
    (hrun : active_instances hs is ps = Except.ok (out, fin, log)) :
    ∀ r ∈ out, ∃ rec ref hyp pr,
      rec ∈ is ∧ rec.id = r.id ∧ rec.hypervisor = some ref ∧
      dlookup (shortName ref) (hypShortMap hs) = some hyp ∧
      r.availability_zone = hyp.availability_zone ∧
      dlookup rec.project_id (buildProjectById ps) = some pr ∧
      r.project_display_name = some pr.display_name ∧
      r.hypervisor = rec.hypervisor ∧ r.project_id = rec.project_id := by
  intro r hr
  rcases run_output_enriched hs is ps out fin log hrun r hr with
    ⟨rec, hyp, pr, hmem, hrid, hrh, _, hpr, hre⟩
  cases hrefc : rec.hypervisor with
  | none => rw [resolvedHyp, hrefc] at hrh; cases hrh
  | some ref =>
    rw [resolvedHyp, hrefc] at hrh
    refine ⟨rec, ref, hyp, pr, hmem, hrid, hrefc, hrh, ?_, hpr, ?_, ?_, ?_⟩ <;>
      rw [hre] <;> simp [enrichRec, hpr]

/-- Claim C7 (witness): the enrichment-fields theorem instantiated on the
scenario-6 run's single output record. -/
theorem c7_enrichment_fields_witness :
    ∃ rec ref hyp pr,
      rec ∈ [exI4] ∧ rec.id = exI4enr.id ∧ rec.hypervisor = some ref ∧
      dlookup (shortName ref) (hypShortMap [exH1, exH2]) = some hyp ∧
      exI4enr.availability_zone = hyp.availability_zone ∧
      dlookup rec.project_id (buildProjectById [exP1]) = some pr ∧
      exI4enr.project_display_name = some pr.display_name ∧
      exI4enr.hypervisor = rec.hypervisor ∧ exI4enr.project_id = rec.project_id :=
  c7_enrichment_fields [exH1, exH2] [exI4] [exP1] [exI4enr] [exI4enr]
    [LogEvent.debugCheckedAZ, LogEvent.warnDupShortName "a" "H1" "H2",
     LogEvent.debugCheckedInstances] rfl exI4enr (List.mem_cons_self _ _)

/-! ### Claim C9 -/

/-- Claim C9: every record of the output stream carries a non-falsy
availability zone — neither null nor the empty string — because a run
only succeeds when every fetched hypervisor passed the availability-zone
check and every output zone is copied from such a hypervisor. -/
theorem c9_output_az_nonempty (hs : List Hypervisor) (is : List Inst) (ps : List Project)
    (out fin : List Inst) (log : List LogEvent)
    (hrun : active_instances hs is ps = Except.ok (out, fin, log)) :
    ∀ r ∈ out, azFalsy r.availability_zone = false := by
  rcases active_instances_ok_inv hs is ps out fin log hrun with ⟨haz, _, _, _, _⟩
  intro r hr
  rcases run_output_enriched hs is ps out fin log hrun r hr with
    ⟨rec, hyp, pr, _, _, _, hhs, hpr, hre⟩
  have hhf : azFalsy hyp.availability_zone = false := azCheck_eq_none.mp haz hyp hhs
  have hraz : r.availability_zone = hyp.availability_zone := by
    rw [hre]
    simp [enrichRec, hpr]
  rw [hraz]
  exact hhf

/-- Claim C9 (witness): the non-empty-zone invariant on the scenario-6
run's single output record. -/
theorem c9_output_az_nonempty_witness :
    azFalsy exI4enr.availability_zone = false :=
  c9_output_az_nonempty [exH1, exH2] [exI4] [exP1] [exI4enr] [exI4enr]
    [LogEvent.debugCheckedAZ, LogEvent.warnDupShortName "a" "H1" "H2",
     LogEvent.debugCheckedInstances] rfl exI4enr (List.mem_cons_self _ _)

/-! ### Last-survivor and output-id lemmas -/

theorem lastSurv_mem (hypShort : List (String × Hypervisor))
    (projById : List (String × Project)) (x : String) :
    ∀ (l : List (Nat × Inst)) (p : Nat × Inst),
    lastSurv hypShort projById x l = some p →
    p ∈ l ∧ survB hypShort projById p.2 = true ∧ p.2.id = x := by
  intro l
  induction l with
  | nil => intro p h; cases h
  | cons q rest ih =>
    intro p h
    cases hls : lastSurv hypShort projById x rest with
    | some q2 =>
      rw [lastSurv, hls] at h
      cases h
      rcases ih _ hls with ⟨h1, h2, h3⟩
      exact ⟨List.mem_cons_of_mem _ h1, h2, h3⟩
    | none =>
      rw [lastSurv, hls] at h
      cases hc : (survB hypShort projById q.2 && (q.2.id == x)) with
      | false => rw [hc] at h; cases h
      | true =>
        rw [hc] at h
        cases h
        rcases Bool.and_eq_true_iff.mp hc with ⟨hc1, hc2⟩
        exact ⟨List.mem_cons_self _ _, hc1, by simpa using hc2⟩

/-- The output-record ids are exactly the keys of `instance_by_id`, in
its insertion order. -/
theorem run_output_ids (hs : List Hypervisor) (is : List Inst) (ps : List Project) :
    (outputRecords (runAccum hs is ps).2
      (enrichAll (buildProjectById ps) (runAccum hs is ps).2
        (runAccum hs is ps).1 is)).map Inst.id =
      (runAccum hs is ps).2.map Prod.fst := by
  apply outputRecords_map_id
  intro p hp
  have hlk : dlookup p.1 (runAccum hs is ps).2 = some p.2 :=
    dlookup_of_mem_nodup (runAccum_nodup hs is ps).2 ((Prod.mk.eta (p := p)) ▸ hp)
  rcases runAccum_inv hs is ps p.1 p.2 hlk with ⟨rec, hyp, hg, hid, _, _, _⟩
  have hids := enrichAll_map_id (buildProjectById ps) (runAccum hs is ps).2
    (runAccum hs is ps).1 is
  have h1 := congrArg (fun l => l[p.2]?) hids
  simp only [List.getElem?_map] at h1
  rw [hg] at h1
  cases hf : (enrichAll (buildProjectById ps) (runAccum hs is ps).2
      (runAccum hs is ps).1 is)[p.2]? with
  | none => rw [hf] at h1; cases h1
  | some rec2 =>
    rw [hf] at h1
    refine ⟨rec2, rfl, ?_⟩
    have : rec2.id = rec.id := by simpa using h1
    rw [this, hid]

/-! ### Projection congruence (for idempotence) -/

theorem joinLoop_proj_congr (hypShort : List (String × Hypervisor))
    (projById : List (String × Project)) :
    ∀ (a b : List Inst) (n : Nat) (mh : List (String × Hypervisor))
    (mi : List (String × Nat)) (log : List LogEvent),
    a.map projOf = b.map projOf →
    joinLoop hypShort projById (enumerate n a) mh mi log =
      joinLoop hypShort projById (enumerate n b) mh mi log := by
  intro a
  induction a with
  | nil =>
    intro b n mh mi log h
    cases b with
    | nil => rfl
    | cons j restb => simp at h
  | cons i resta ih =>
    intro b n mh mi log h
    cases b with
    | nil => simp at h
    | cons j restb =>
      simp only [List.map_cons, List.cons.injEq] at h
      obtain ⟨h1, h2⟩ := h
      have hid : i.id = j.id := congrArg (fun t => t.1) h1
      have hhyp : i.hypervisor = j.hypervisor := congrArg (fun t => t.2.1) h1
      have hpid : i.project_id = j.project_id := congrArg (fun t => t.2.2) h1
      show joinLoop hypShort projById ((n, i) :: enumerate (n + 1) resta) mh mi log =
        joinLoop hypShort projById ((n, j) :: enumerate (n + 1) restb) mh mi log
      cases hhi : i.hypervisor with
      | none =>
        have hhj : j.hypervisor = none := hhyp ▸ hhi
        rw [joinLoop_cons_noHyp (p := (n, i)) _ mh mi log hhi,
            joinLoop_cons_noHyp (p := (n, j)) _ mh mi log hhj]
        rw [show (n, i).2.id = (n, j).2.id from hid]
        exact ih restb (n + 1) mh mi _ h2
      | some ref =>
        have hhj : j.hypervisor = some ref := hhyp ▸ hhi
        cases hd : dlookup (shortName ref) hypShort with
        | none =>
          rw [joinLoop_cons_fatal (p := (n, i)) _ mh mi log hhi hd,
              joinLoop_cons_fatal (p := (n, j)) _ mh mi log hhj hd]
          rw [show (n, i).2.id = (n, j).2.id from hid]
        | some hyp =>
          cases hp : dlookup i.project_id projById with
          | none =>
            have hpj : dlookup j.project_id projById = none := hpid ▸ hp
            rw [joinLoop_cons_badProj (p := (n, i)) _ mh mi log hhi hd hp,
                joinLoop_cons_badProj (p := (n, j)) _ mh mi log hhj hd hpj]
            rw [show (n, i).2.id = (n, j).2.id from hid,
                show (n, i).2.project_id = (n, j).2.project_id from hpid]
            exact ih restb (n + 1) mh mi _ h2
          | some pr =>
            have hpj : dlookup j.project_id projById = some pr := hpid ▸ hp
            rw [joinLoop_cons_keep (p := (n, i)) _ mh mi log hhi hd hp,
                joinLoop_cons_keep (p := (n, j)) _ mh mi log hhj hd hpj]
            rw [show (n, i).2.id = (n, j).2.id from hid]
            exact ih restb (n + 1) _ _ _ h2

/-- Enriching any list through the run's dicts rewrites the position a
key points at by `enrichRec` with the hypervisor stored under that key. -/
theorem run_touched (hs : List Hypervisor) (is : List Inst) (ps : List Project)
    (insts : List Inst) {iid : String} {hyp : Hypervisor} {j : Nat}
    (hmh : dlookup iid (runAccum hs is ps).1 = some hyp)
    (hmi : dlookup iid (runAccum hs is ps).2 = some j) :
    (enrichAll (buildProjectById ps) (runAccum hs is ps).2
      (runAccum hs is ps).1 insts)[j]? =
      (insts[j]?).map (enrichRec (buildProjectById ps) hyp) := by
  apply enrichAll_touched (buildProjectById ps) (runAccum hs is ps).2
    (runAccum hs is ps).1 insts iid hyp j (runAccum_nodup hs is ps).1
    (dlookup_mem hmh) hmi
  intro e he hne hcontra
  exact hne (runAccum_mi_inj hs is ps hcontra hmi)

theorem hypOk_proj (hypShort : List (String × Hypervisor)) {i q : Inst}
    (h : i.hypervisor = q.hypervisor) : hypOk hypShort i = hypOk hypShort q := by
  simp only [hypOk, h]

/-! ### Claim C10 -/

/-- Claim C10: the output holds at most one record per instance id; when
records with the same id survive the join, the one appearing in the
output is the enrichment of the LAST surviving record in input order
(earlier ones are overwritten in the id-keyed dicts); and the log of the
run consists exactly of the availability-zone debug line, the short-name
collision warnings, the per-record join warnings and the final debug
line — no event mentions the overwrite. -/
theorem c10_duplicate_ids_last_wins (hs : List Hypervisor) (is : List Inst)
    (ps : List Project) (out fin : List Inst) (log : List LogEvent) (x : String)
    (hrun : active_instances hs is ps = Except.ok (out, fin, log)) :
    (out.filter (fun r => r.id == x)).length ≤ 1 ∧
    (∀ p hyp,
      lastSurv (hypShortMap hs) (buildProjectById ps) x (enumerate 0 is) = some p →
      resolvedHyp (hypShortMap hs) p.2 = some hyp →
      enrichRec (buildProjectById ps) hyp p.2 ∈ out) ∧
    log = (LogEvent.debugCheckedAZ :: (buildHypShortAux hs [] []).2) ++
      joinWarnings (hypShortMap hs) (buildProjectById ps) (enumerate 0 is) ++
      [LogEvent.debugCheckedInstances] := by
  rcases active_instances_ok_inv hs is ps out fin log hrun with ⟨haz, hok, hfin, hout, hlog⟩
  have hru : runAccum hs is ps =
      joinAccum (hypShortMap hs) (buildProjectById ps) (enumerate 0 is) ([], []) := rfl
  rw [← hru] at hfin hout
  refine ⟨?_, ?_, hlog⟩
  · have hids : out.map Inst.id = (runAccum hs is ps).2.map Prod.fst := by
      rw [hout, hfin]
      exact run_output_ids hs is ps
    have hnd2 : (out.map Inst.id).Nodup := by
      rw [hids]
      exact (runAccum_nodup hs is ps).2
    have hcnt := List.nodup_iff_count_le_one.mp hnd2 x
    have heq : (out.filter (fun r => r.id == x)).length =
        List.count x (out.map Inst.id) := by
      rw [List.count_eq_countP, List.countP_map, ← List.countP_eq_length_filter]
      rfl
    rw [heq]
    exact hcnt
  · intro p hyp hls hrh
    rcases lastSurv_mem (hypShortMap hs) (buildProjectById ps) x (enumerate 0 is) p hls
      with ⟨hpmem, hpsurv, hpid⟩
    have hgl := (joinAccum_dlookup_last (hypShortMap hs) (buildProjectById ps) x
      (enumerate 0 is) ([], [])).1
    have hgl2 := (joinAccum_dlookup_last (hypShortMap hs) (buildProjectById ps) x
      (enumerate 0 is) ([], [])).2
    rw [hls] at hgl hgl2
    rw [← hru] at hgl hgl2
    have hgl' : dlookup x (runAccum hs is ps).2 = some p.1 := hgl
    have hgl2' : dlookup x (runAccum hs is ps).1 = resolvedHyp (hypShortMap hs) p.2 := hgl2
    rw [hrh] at hgl2'
    have hrec : is[p.1]? = some p.2 := by
      have := (enumerate_mem_getElem 0 hpmem).2
      simpa using this
    have htch := run_touched hs is ps is hgl2' hgl'
    have hfj : fin[p.1]? = some (enrichRec (buildProjectById ps) hyp p.2) := by
      rw [hfin, htch, hrec]
      rfl
    rw [hout]
    exact mem_outputRecords.mpr ⟨(x, p.1), dlookup_mem hgl', hfj⟩

/-- Concrete fixtures for C10: two surviving records with the same id. -/
def exI5a : Inst := ⟨"I5", some "a.example.com", "P1", some "first-az", none⟩

/-- The later duplicate of exI5a. -/
def exI5b : Inst := ⟨"I5", some "a.example.com", "P1", some "second-az", none⟩

/-- What the run turns the later duplicate into, in place. -/
def exI5benr : Inst := ⟨"I5", some "a.example.com", "P1", some "az2", some "Team Alpha"⟩

/-- Claim C10 (witness): the duplicate-id theorem on a run with two
surviving records sharing id "I5" — the output keeps one record, the
enrichment of the later one. -/
theorem c10_duplicate_ids_last_wins_witness :
    (([exI5benr] : List Inst).filter (fun r => r.id == "I5")).length ≤ 1 ∧
    (∀ p hyp,
      lastSurv (hypShortMap [exH1, exH2]) (buildProjectById [exP1]) "I5"
        (enumerate 0 [exI5a, exI5b]) = some p →
      resolvedHyp (hypShortMap [exH1, exH2]) p.2 = some hyp →
      enrichRec (buildProjectById [exP1]) hyp p.2 ∈ [exI5benr]) ∧
    [LogEvent.debugCheckedAZ, LogEvent.warnDupShortName "a" "H1" "H2",
      LogEvent.debugCheckedInstances] =
      (LogEvent.debugCheckedAZ :: (buildHypShortAux [exH1, exH2] [] []).2) ++
      joinWarnings (hypShortMap [exH1, exH2]) (buildProjectById [exP1])
        (enumerate 0 [exI5a, exI5b]) ++
      [LogEvent.debugCheckedInstances] :=
  c10_duplicate_ids_last_wins [exH1, exH2] [exI5a, exI5b] [exP1]
    [exI5benr] [exI5a, exI5benr]
    [LogEvent.debugCheckedAZ, LogEvent.warnDupShortName "a" "H1" "H2",
     LogEvent.debugCheckedInstances] "I5" rfl

/-! ### Claim C8 -/

/-- Claim C8: reconciliation is idempotent over the fetched objects even
though it mutates them: running the core again over the same (now
enriched in place) fetched instance records, with the same hypervisor
and project snapshots, succeeds and returns literally the same output
records, the same post-run instance list and the same log. -/
theorem c8_idempotent (hs : List Hypervisor) (is : List Inst) (ps : List Project)
    (out fin : List Inst) (log : List LogEvent)
    (hrun : active_instances hs is ps = Except.ok (out, fin, log)) :
    active_instances hs fin ps = Except.ok (out, fin, log) := by
  rcases active_instances_ok_inv hs is ps out fin log hrun with ⟨haz, hok, hfin, hout, hlog⟩
  have hru : runAccum hs is ps =
      joinAccum (hypShortMap hs) (buildProjectById ps) (enumerate 0 is) ([], []) := rfl
  rw [← hru] at hfin hout
  have hproj : fin.map projOf = is.map projOf := by
    rw [hfin]
    exact enrichAll_map_projOf _ _ _ _
  have hok2 : ∀ i ∈ fin, hypOk (hypShortMap hs) i = true := by
    intro i hi
    have hmem : projOf i ∈ is.map projOf := by
      rw [← hproj]
      exact List.mem_map.mpr ⟨i, hi, rfl⟩
    rcases List.mem_map.mp hmem with ⟨q, hq, hpq⟩
    rw [hypOk_proj (hypShortMap hs) ((congrArg (fun t => t.2.1) hpq.symm) : _)]
    exact hok q hq
  have hoke : ∀ p ∈ enumerate 0 is, hypOk (hypShortMap hs) p.2 = true :=
    fun p hp => hok p.2 (enumerate_snd_mem 0 hp)
  have hoke2 : ∀ p ∈ enumerate 0 fin, hypOk (hypShortMap hs) p.2 = true :=
    fun p hp => hok2 p.2 (enumerate_snd_mem 0 hp)
  have hjl := joinLoop_proj_congr (hypShortMap hs) (buildProjectById ps) fin is 0 [] [] []
    hproj
  rw [joinLoop_ok _ _ _ _ _ _ hoke2, joinLoop_ok _ _ _ _ _ _ hoke] at hjl
  simp only [Except.ok.injEq, Prod.mk.injEq, List.nil_append] at hjl
  obtain ⟨hmh, hmi, hjw⟩ := hjl
  rw [active_instances_ok_eq hs fin ps haz hok2, hmh, hmi, hjw, ← hru]
  have hfin2 : enrichAll (buildProjectById ps) (runAccum hs is ps).2
      (runAccum hs is ps).1 fin = fin := by
    apply List.ext_getElem?
    intro j
    by_cases hex : ∃ e, e ∈ (runAccum hs is ps).1 ∧
        dlookup e.1 (runAccum hs is ps).2 = some j
    · rcases hex with ⟨e, he, hej⟩
      have hmhe : dlookup e.1 (runAccum hs is ps).1 = some e.2 :=
        dlookup_of_mem_nodup (runAccum_nodup hs is ps).1 ((Prod.mk.eta (p := e)) ▸ he)
      have h2 := run_touched hs is ps fin hmhe hej
      have h1 := run_touched hs is ps is hmhe hej
      have hfj : fin[j]? = (is[j]?).map (enrichRec (buildProjectById ps) e.2) := by
        rw [hfin]
        exact h1
      rw [h2, hfj]
      cases is[j]? with
      | none => rfl
      | some rec => simp [enrichRec_idem]
    · push_neg at hex
      exact enrichAll_untouched _ _ _ _ j fun e he => hex e he
  rw [hfin2, ← hout, hlog]

/-- Claim C8 (witness): the idempotence theorem on the scenario-6 run. -/
theorem c8_idempotent_witness :
    active_instances [exH1, exH2] [exI4enr] [exP1] =
      Except.ok ([exI4enr], [exI4enr],
        [LogEvent.debugCheckedAZ, LogEvent.warnDupShortName "a" "H1" "H2",
         LogEvent.debugCheckedInstances]) :=
  c8_idempotent [exH1, exH2] [exI4] [exP1] [exI4enr] [exI4enr]
    [LogEvent.debugCheckedAZ, LogEvent.warnDupShortName "a" "H1" "H2",
     LogEvent.debugCheckedInstances] rfl

end ActiveInstances
